import Mathlib

/-!
Verification of the Paren language kernel (libparen.cpp / libparen.h)
against its natural-language specification.

The development is a shallow embedding of the kernel:

* C++ `int` is idealised as unbounded `Int` (signed overflow is UB in the
  source; no claim exercises an overflowing input).
* C++ `double` is idealised as `Rat`; IEEE rounding and infinities are not
  modelled, and the one operation that would leave `Rat` (double division by
  zero) is mapped to the error branch of the embedding.
* `std::shared_ptr<Node>` / `std::shared_ptr<environment>` are modelled as
  indices (`Addr`) into explicit stores, so that in-place mutation shared
  between bindings is observable, exactly as in the source.
* a C++ operation whose behaviour is undefined (out-of-bounds `operator[]`,
  `.at` throwing, reading an indeterminate union member, integer division by
  zero) is mapped to `none` — the error branch of the embedding.
-/

/-! ## Symbol interning (libparen.cpp lines 221-234)

```cpp
std::map<std::string, size_t, std::less<>> symcode;
std::vector<std::string> symname;

size_t ToCode(std::string_view name) {
  auto found = symcode.find(name);
  if (found != symcode.end()) {
    return found->second;
  } else {
    size_t r = symcode.size();
    symcode[std::string(name)] = r;
    symname.emplace_back(name);
    return r;
  }
}
```

`symcode` is a finite map keyed by strings; we model it as an association
list with distinct keys (the position of an entry is irrelevant to a finite
map, so insertion is modelled as appending).  `symname` is a vector.
-/

structure SymTab where
  symcode : List (String × Nat)
  symname : List String
  deriving Repr, DecidableEq

def SymTab.empty : SymTab := ⟨[], []⟩

/-- Models `ToCode` from the source: return the existing code, or assign the next
one (`symcode.size()`), record it in both tables, and return it. -/
def ToCode (name : String) (t : SymTab) : Nat × SymTab :=
  match t.symcode.lookup name with
  | some c => (c, t)
  | none =>
      let r := t.symcode.length
      (r, ⟨t.symcode ++ [(name, r)], t.symname ++ [name]⟩)

/-- Well-formedness of the interning state: the two tables have equal size,
keys are distinct, and every recorded pair is consistent with `symname`.
It holds for the empty state and is preserved by `ToCode` (proved below). -/
def SymTab.WF (t : SymTab) : Prop :=
  t.symcode.length = t.symname.length ∧
  (t.symcode.map Prod.fst).Nodup ∧
  ∀ p ∈ t.symcode, t.symname.get? p.2 = some p.1

instance (t : SymTab) : Decidable t.WF := by
  unfold SymTab.WF; infer_instance

/-! ## Tokenizer (libparen.cpp lines 143-219)

The C++ `Tokenizer::tokenize` walks the buffer with
`size_t last = s.length() - 1; for (size_t pos = 0; pos <= last; pos++)`.
On the empty string `last` underflows to `SIZE_MAX`, so the first
`s.at(0)` throws `std::out_of_range`; inside a string literal an escape
reads `s.at(pos + 1)`, which throws when the backslash is the final
character.  `.at` throwing is modelled as `atThrow` (the exception is
uncaught, so the process aborts).  The loops are modelled with explicit
fuel; `fuelOut` is unreachable for the fuel used by `tokenize` (this is
part of what the totality theorem proves).
-/

def strAt (s : List Char) (i : Nat) : Option Char := s.get? i

/-- Models `operator[]` on a `std::string`: unchecked; the source only uses it at
`pos + 1` under a `pos < last` guard, so the default is never read. -/
def sIdx (s : List Char) (i : Nat) : Char := (s.get? i).getD (Char.ofNat 0)

def emitTok (acc : List Char) (ret : List String) : List String :=
  if acc.length > 0 then ret ++ [acc.asString] else ret

inductive SRes where
  | ok (acc : List Char) (pos : Nat) (unclosed : Int)
  | atThrow
  | fuelOut
  deriving Repr, DecidableEq

/-- String-literal scan: the `while (pos <= last)` loop of lines 177-196.
Returns the accumulated token, the position of the closing quote (or the
first position past the buffer), and the updated `unclosed` counter. -/
def scanStr : Nat → List Char → Nat → Nat → List Char → Int → SRes
  | 0, _, _, _, _, _ => .fuelOut
  | fuel+1, s, last, pos, acc, unc =>
    if pos ≤ last then
      match strAt s pos with
      | none => .atThrow
      | some c =>
        if c = '"' then .ok acc pos (unc - 1)
        else if c = '\\' then
          match strAt s (pos + 1) with
          | none => .atThrow
          | some nx =>
            let nx2 := if nx = 'r' then '\r' else if nx = 'n' then '\n'
                       else if nx = 't' then '\t' else nx
            scanStr fuel s last (pos + 2) (acc ++ [nx2]) unc
        else scanStr fuel s last (pos + 1) (acc ++ [c]) unc
    else .ok acc pos unc

inductive CRes where
  | ok (pos : Nat)
  | atThrow
  | fuelOut
  deriving Repr, DecidableEq

/-- Comment skip: the `do pos++; while (pos <= last && s.at(pos) != '\n')`
loop of lines 169-171. -/
def skipCom : Nat → List Char → Nat → Nat → CRes
  | 0, _, _, _ => .fuelOut
  | fuel+1, s, last, pos =>
    if pos + 1 ≤ last then
      match strAt s (pos + 1) with
      | none => .atThrow
      | some c => if c = '\n' then .ok (pos + 1) else skipCom fuel s last (pos + 1)
    else .ok (pos + 1)

inductive TRes where
  | ok (toks : List String) (unclosed : Int)
  | atThrow
  | fuelOut
  deriving Repr, DecidableEq

/-- The main `for (size_t pos = 0; pos <= last; pos++)` loop of
`Tokenizer::tokenize` (lines 159-213). -/
def tokLoop : Nat → List Char → Nat → Nat → List Char → List String → Int → TRes
  | 0, _, _, _, _, _, _ => .fuelOut
  | fuel+1, s, last, pos, acc, ret, unc =>
    if pos ≤ last then
      match strAt s pos with
      | none => .atThrow
      | some c =>
        if c = ' ' ∨ c = '\t' ∨ c = '\r' ∨ c = '\n' then
          tokLoop fuel s last (pos + 1) [] (emitTok acc ret) unc
        else if c = ';' ∨ (pos < last ∧ c = '#' ∧ sIdx s (pos + 1) = '!') then
          match skipCom (last + 2) s last pos with
          | .ok p2 => tokLoop fuel s last (p2 + 1) [] (emitTok acc ret) unc
          | .atThrow => .atThrow
          | .fuelOut => .fuelOut
        else if c = '"' then
          match scanStr (last + 2) s last (pos + 1) ['"'] (unc + 1) with
          | .ok acc2 p2 unc2 =>
              tokLoop fuel s last (p2 + 1) [] (emitTok acc2 (emitTok acc ret)) unc2
          | .atThrow => .atThrow
          | .fuelOut => .fuelOut
        else if c = '(' then
          tokLoop fuel s last (pos + 1) [] (emitTok [c] (emitTok acc ret)) (unc + 1)
        else if c = ')' then
          tokLoop fuel s last (pos + 1) [] (emitTok [c] (emitTok acc ret)) (unc - 1)
        else
          tokLoop fuel s last (pos + 1) (acc ++ [c]) ret unc
    else .ok (emitTok acc ret) unc

/-- Models `size_t` wrap of `s.length() - 1` on the empty string. -/
def SIZE_T_MAX : Nat := 2 ^ 64 - 1

/-- Models `tokenize` (line 217): run the tokenizer over a whole buffer. -/
def tokenize (str : String) : TRes :=
  let s := str.data
  let last := if s.length = 0 then SIZE_T_MAX else s.length - 1
  tokLoop (last + 2) s last 0 [] [] 0

/-! ## Value model (libparen.h lines 42-82, libparen.cpp lines 13-31)

`Node` is a tagged struct: an enum `type`, an anonymous union
(`v_int / code / v_double / v_bool / p_thread / v_builtin`), and the
always-present members `v_string`, `v_list`, `outer_env`.  Shared pointers
`snode` / `senvironment` are modelled as indices into explicit stores.

The union member `p_thread` carries a default member initializer
(`pthread p_thread = nullptr`), so every constructor that does not
explicitly initialize a union member (the default constructor and the
string / vector constructors) leaves the union holding a null pointer:
all bits zero.  Reading `v_double` from such a node reinterprets those
zero bits and yields `+0.0` (modelled as `some 0`); reading `v_double`
from a node whose constructor wrote only `v_int` or `v_bool` reads
indeterminate bytes and is modelled as `none` (the error branch). -/

abbrev Addr := Nat

inductive Tag where
  | tNil | tInt | tDouble | tBool | tString | tSymbol | tList
  | tSpecial | tBuiltin | tFn | tThread
  deriving Repr, DecidableEq

/-- The special-form handlers installed by `init` via `make_special`. -/
inductive SName where
  | sDef | sSet | sIf | sFn | sBegin | sWhile | sQuote | sAndAnd | sOrOr
  deriving Repr, DecidableEq

/-- The builtin handlers installed by `init` via `Node(builtin)`.
(`std::thread` is installed with the `Node(builtin)` constructor at line
1160-1161, so it is tagged `T_BUILTIN`, not `T_SPECIAL`.) -/
inductive BName where
  | bEval | bPlus | bMinus | bMul | bDiv | bLt | bCaret | bPercent | bSqrt
  | bPlusPlus | bMinusMinus | bFloor | bCeil | bLn | bLog10 | bRand | bEqEq
  | bNot | bStrlen | bCharAt | bChr | bInt | bDouble | bString | bReadString
  | bType | bList | bApply | bFold | bMap | bFilter | bPushBackD | bPopBackD
  | bNth | bLength | bPr | bPrn | bExit | bSystem | bCons | bReadLine
  | bSlurp | bSpit | bJoin | bImport | bThread
  deriving Repr, DecidableEq

inductive UnionV where
  | uNull
  | uInt (n : Int)
  | uDouble (d : Rat)
  | uBool (b : Bool)
  | uCode (c : Nat)
  | uSpecial (s : SName)
  | uBuiltin (b : BName)
  deriving Repr, DecidableEq

structure NodeR where
  tag : Tag
  uni : UnionV
  v_string : String
  v_list : List Addr
  outer_env : Option Nat
  deriving Repr, DecidableEq

/-- Models `Node()` — `type(T_NIL)`, union default-initialized to null. -/
def mkNil : NodeR := ⟨.tNil, .uNull, "", [], none⟩
/-- Models `Node(int)` — only `v_int` is written. -/
def mkInt (n : Int) : NodeR := ⟨.tInt, .uInt n, "", [], none⟩
/-- Models `Node(double)`. -/
def mkDouble (d : Rat) : NodeR := ⟨.tDouble, .uDouble d, "", [], none⟩
/-- Models `Node(bool)` — only `v_bool` is written. -/
def mkBool (b : Bool) : NodeR := ⟨.tBool, .uBool b, "", [], none⟩
/-- Models `Node(const std::string &)` — union default-initialized to null. -/
def mkStr (s : String) : NodeR := ⟨.tString, .uNull, s, [], none⟩
/-- Models `Node(const std::vector<snode> &)` — union default-initialized to null. -/
def mkListN (l : List Addr) : NodeR := ⟨.tList, .uNull, "", l, none⟩
/-- Models `Node(builtin)` — `type(T_BUILTIN)`, `v_builtin(a)`. -/
def mkBuiltin (b : BName) : NodeR := ⟨.tBuiltin, .uBuiltin b, "", [], none⟩
/-- Models `make_special` (lines 20-25). -/
def mkSpecial (s : SName) : NodeR := ⟨.tSpecial, .uSpecial s, "", [], none⟩
/-- Symbol node as built by the parser (lines 264-269): default-construct,
then set `type`, `v_string` and `code`. -/
def mkSym (name : String) (code : Nat) : NodeR := ⟨.tSymbol, .uCode code, name, [], none⟩

/-! ### libc numeric parsing (`atoi`, `atof`)

Models of the C library functions used by `Node::to_int` / `Node::to_double`
on strings: skip leading whitespace, optional sign, digits (and for `atof` an
optional fraction and decimal exponent); 0 on no parse.  the hexadecimal
and infinity/NaN forms of `atof` are not modelled (no claim exercises them), and the
result is exact (`Rat`) rather than rounded to binary64. -/

def skipWs : List Char → List Char
  | [] => []
  | c :: cs =>
      if c = ' ' ∨ c = '\t' ∨ c = '\n' ∨ c = '\r' ∨ c = '\x0b' ∨ c = '\x0c' then
        skipWs cs
      else c :: cs

def isDigitC (c : Char) : Bool := '0' ≤ c ∧ c ≤ '9'

def readDigits : List Char → Nat → Nat × List Char
  | [], acc => (acc, [])
  | c :: cs, acc =>
      if isDigitC c then readDigits cs (acc * 10 + (c.toNat - '0'.toNat))
      else (acc, c :: cs)

def readFracDigits : List Char → Nat → Nat → Nat × Nat
  | [], num, den => (num, den)
  | c :: cs, num, den =>
      if isDigitC c then readFracDigits cs (num * 10 + (c.toNat - '0'.toNat)) (den * 10)
      else (num, den)

def cAtoi (s : String) : Int :=
  match skipWs s.data with
  | '-' :: cs => -((readDigits cs 0).1 : Int)
  | '+' :: cs => ((readDigits cs 0).1 : Int)
  | cs => ((readDigits cs 0).1 : Int)

def readExp : List Char → Int
  | '-' :: cs => -((readDigits cs 0).1 : Int)
  | '+' :: cs => ((readDigits cs 0).1 : Int)
  | cs => ((readDigits cs 0).1 : Int)

def cAtof (s : String) : Rat :=
  match skipWs s.data with
  | '-' :: cs => -(cAtofMag cs)
  | '+' :: cs => cAtofMag cs
  | cs => cAtofMag cs
where
  cAtofMag (cs : List Char) : Rat :=
    let ip := readDigits cs 0
    let fr :=
      match ip.2 with
      | '.' :: r => (readFracDigits r 0 1, (readDigits r 0).2)
      | r => ((0, 1), r)
    let ex : Int :=
      match fr.2 with
      | 'e' :: r => readExp r
      | 'E' :: r => readExp r
      | _ => 0
    ((ip.1 : Rat) + (fr.1.1 : Rat) / (fr.1.2 : Rat)) * (10 : Rat) ^ ex

/-- C++ `(int)` cast of a double: truncation toward zero. -/
def ratTrunc (q : Rat) : Int := if 0 ≤ q then ⌊q⌋ else -⌊-q⌋

/-- Models `Node::to_int` (lines 35-48). -/
def NodeR.to_int (n : NodeR) : Int :=
  match n.tag, n.uni with
  | .tInt, .uInt v => v
  | .tDouble, .uDouble d => ratTrunc d
  | .tBool, .uBool b => if b then 1 else 0
  | .tString, _ => cAtoi n.v_string
  | _, _ => 0

/-- Models `Node::to_double` (lines 50-63). -/
def NodeR.to_double (n : NodeR) : Rat :=
  match n.tag, n.uni with
  | .tInt, .uInt v => (v : Rat)
  | .tDouble, .uDouble d => d
  | .tBool, .uBool b => if b then 1 else 0
  | .tString, _ => cAtof n.v_string
  | _, _ => 0

/-- Raw read of the union member `v_double` (the `first->v_double` reads in
the arithmetic builtins): defined for an actual double and for a union left
at its null default (all-zero bits give `+0.0`); indeterminate for the
other constructors. -/
def UnionV.vDoubleRead : UnionV → Option Rat
  | .uDouble d => some d
  | .uNull => some 0
  | _ => none

/-- Raw read of the union member `v_int`. -/
def UnionV.vIntRead : UnionV → Option Int
  | .uInt v => some v
  | _ => none

/-- Raw read of the union member `v_bool` (used by `special_if`,
`special_while`, `&&`, `||`, `builtin_not`, `builtin_filter`).  A union
left at its null default reads as `false` (zero bits). -/
def UnionV.vBoolRead : UnionV → Option Bool
  | .uBool b => some b
  | .uNull => some false
  | _ => none

/-! ## Arithmetic builtins `+ - * /` (libparen.cpp lines 604-690)

Each of the four functions has the same shape:

```cpp
size_t len = args.size();
if (len <= 0) return node_0;            // node_1 for * and /
snode first = args[0];
if (first->type == Node::T_INT) {
  int sum = first->v_int;               // raw union read
  for (i = args.begin() + 1; ...) sum OP= (*i)->to_int();
  return make_shared<Node>(sum);
} else {
  double sum = first->v_double;         // raw union read, NOT to_double()
  for (i = args.begin() + 1; ...) sum OP= (*i)->to_double();
  return make_shared<Node>(sum);
}
```

Only the subsequent operands go through the coercions; the seed is the raw
union member of the first operand.  Integer division by zero (and double
division by zero, which leaves the `Rat` idealisation) map to `none`. -/

inductive AOp where
  | plus | minus | mul | div
  deriving Repr, DecidableEq

def aopInt : AOp → Int → NodeR → Option Int
  | .plus, s, a => some (s + a.to_int)
  | .minus, s, a => some (s - a.to_int)
  | .mul, s, a => some (s * a.to_int)
  | .div, s, a => if a.to_int = 0 then none else some (s.tdiv a.to_int)

def aopRat : AOp → Rat → NodeR → Option Rat
  | .plus, s, a => some (s + a.to_double)
  | .minus, s, a => some (s - a.to_double)
  | .mul, s, a => some (s * a.to_double)
  | .div, s, a => if a.to_double = 0 then none else some (s / a.to_double)

/-- The `for` loop folding one operand at a time. -/
def optFold (f : α → NodeR → Option α) : α → List NodeR → Option α
  | s, [] => some s
  | s, x :: xs => f s x >>= fun s2 => optFold f s2 xs

/-- Models `builtin_plus` (lines 604-624), on argument values. -/
def builtin_plus_v (args : List NodeR) : Option NodeR :=
  match args with
  | [] => some (mkInt 0)
  | first :: rest =>
      if first.tag = .tInt then
        match first.uni.vIntRead with
        | some v => (optFold (aopInt .plus) v rest).map mkInt
        | none => none
      else
        match first.uni.vDoubleRead with
        | some d => (optFold (aopRat .plus) d rest).map mkDouble
        | none => none

/-- Models `builtin_minus` (lines 626-646). -/
def builtin_minus_v (args : List NodeR) : Option NodeR :=
  match args with
  | [] => some (mkInt 0)
  | first :: rest =>
      if first.tag = .tInt then
        match first.uni.vIntRead with
        | some v => (optFold (aopInt .minus) v rest).map mkInt
        | none => none
      else
        match first.uni.vDoubleRead with
        | some d => (optFold (aopRat .minus) d rest).map mkDouble
        | none => none

/-- Models `builtin_mul` (lines 648-668). -/
def builtin_mul_v (args : List NodeR) : Option NodeR :=
  match args with
  | [] => some (mkInt 1)
  | first :: rest =>
      if first.tag = .tInt then
        match first.uni.vIntRead with
        | some v => (optFold (aopInt .mul) v rest).map mkInt
        | none => none
      else
        match first.uni.vDoubleRead with
        | some d => (optFold (aopRat .mul) d rest).map mkDouble
        | none => none

/-- Models `builtin_div` (lines 670-690). -/
def builtin_div_v (args : List NodeR) : Option NodeR :=
  match args with
  | [] => some (mkInt 1)
  | first :: rest =>
      if first.tag = .tInt then
        match first.uni.vIntRead with
        | some v => (optFold (aopInt .div) v rest).map mkInt
        | none => none
      else
        match first.uni.vDoubleRead with
        | some d => (optFold (aopRat .div) d rest).map mkDouble
        | none => none

def arithOf : AOp → List NodeR → Option NodeR
  | .plus => builtin_plus_v
  | .minus => builtin_minus_v
  | .mul => builtin_mul_v
  | .div => builtin_div_v

/-- The claim's description of the arithmetic builtins, modelled from the
spec's words: mode is chosen by the first operand's tag; in int mode the
to-int coercions of the subsequent operands are folded into the first; in
double mode EVERY operand, the first included, is coerced `to_double`. -/
def specArithClaim (op : AOp) (first : NodeR) (rest : List NodeR) : Option NodeR :=
  if first.tag = .tInt then
    (optFold (aopInt op) first.to_int rest).map mkInt
  else
    (optFold (aopRat op) first.to_double rest).map mkDouble

/-! ## Stores and environments (libparen.h lines 84-92, libparen.cpp 280-298)

`snode` (a `shared_ptr<Node>`) is an address into a node store;
`senvironment` is an address into a frame store.  Allocation appends;
in-place mutation (`*var = *value`, `v_list.push_back`, …) updates the
store at an address, so every binding sharing that address observes it.

The five global node objects of libparen.cpp lines 27-31 are constructed
in declaration order, giving them the first five addresses. -/

structure Frame where
  map : List (Nat × Addr)
  outer : Option Nat
  deriving Repr, DecidableEq

structure St where
  heap : List NodeR
  envs : List Frame
  deriving Repr, DecidableEq

def hGet (s : St) (a : Addr) : Option NodeR := s.heap.get? a
def hSet (s : St) (a : Addr) (n : NodeR) : St := ⟨s.heap.set a n, s.envs⟩
def alloc (s : St) (n : NodeR) : Addr × St := (s.heap.length, ⟨s.heap ++ [n], s.envs⟩)
def eGet (s : St) (e : Nat) : Option Frame := s.envs.get? e
def eSet (s : St) (e : Nat) (f : Frame) : St := ⟨s.heap, s.envs.set e f⟩
def allocEnv (s : St) (outer : Option Nat) : Nat × St :=
  (s.envs.length, ⟨s.heap, s.envs ++ [⟨[], outer⟩]⟩)

/-- Models `node_true, node_false, node_0, node_1, nil` (lines 27-31). -/
def TRUEA : Addr := 0
def FALSEA : Addr := 1
def N0A : Addr := 2
def N1A : Addr := 3
def NILA : Addr := 4

def globalNodes : List NodeR := [mkBool true, mkBool false, mkInt 0, mkInt 1, mkNil]

/-- Models `std::map<size_t, snode>::operator[] =` : insert or assign. -/
def mapInsert : List (Nat × Addr) → Nat → Addr → List (Nat × Addr)
  | [], k, v => [(k, v)]
  | (k0, v0) :: tl, k, v =>
      if k0 = k then (k0, v) :: tl else (k0, v0) :: mapInsert tl k v

/-- Models `environment::get(size_t)` (lines 283-294): current frame, else outer,
else the canonical `nil`.  Fuel bounds the chain walk; it is irrelevant for
the acyclic chains the source constructs. -/
def envGetF : Nat → St → Nat → Nat → Option Addr
  | 0, _, _, _ => none
  | fuel+1, s, e, code =>
      match eGet s e with
      | none => none
      | some fr =>
          match fr.map.lookup code with
          | some v => some v
          | none =>
              match fr.outer with
              | some o => envGetF fuel s o code
              | none => some NILA

def envGet (s : St) (e : Nat) (code : Nat) : Option Addr :=
  envGetF (s.envs.length + 1) s e code

/-- Models `environment::set` (line 298): write into THIS frame only. -/
def envSetCode (s : St) (e : Nat) (code : Nat) (v : Addr) : Option St :=
  match eGet s e with
  | none => none
  | some fr => some (eSet s e ⟨mapInsert fr.map code v, fr.outer⟩)

/-- Read of the union member `code` (valid for symbol nodes). -/
def NodeR.codeRead (n : NodeR) : Option Nat :=
  match n.uni with
  | .uCode c => some c
  | _ => none

/-- Models `std::make_shared<Node>(*p)` : clone the node at an address. -/
def cloneN (s : St) (a : Addr) : Option (Addr × St) :=
  match hGet s a with
  | none => none
  | some n => some (alloc s n)

/-- The parameter-binding loop of `apply` (lines 918-924):
`local_env->env[k->code] = args[i]`, reading `args[i]` without a bounds
check (too few arguments is UB; extra arguments are ignored). -/
def bindParams : List Addr → List Addr → Nat → St → Option St
  | [], _, _, s => some s
  | k :: ks, args, le, s =>
      match hGet s k with
      | none => none
      | some kn =>
          match kn.codeRead with
          | none => none
          | some code =>
              match args with
              | [] => none
              | a :: rest =>
                  match envSetCode s le code a with
                  | none => none
                  | some s2 => bindParams ks rest le s2

/-! ## The evaluator (libparen.cpp lines 393-436, 565-602, 785-821, 906-1031)

`eval`, `apply`, the special forms and the builtins the claims exercise,
embedded as mutually recursive fuel-indexed functions.  Builtins that
perform host I/O, spawn threads, or are exercised by no claim are mapped
to `none` (not modelled).  The fuel only bounds recursion depth /
iteration count; every claim below either supplies a concrete fuel or
quantifies over it. -/

/-- A call into the mutually recursive evaluator.  Lean's mutual-recursion
compilation is opaque to the kernel, so the mutual functions of the source
(`eval`, `apply`, the special forms, the builtins and their loops) are
packed into one fuel-indexed function `interp` over this call type; the
named wrappers below restore the source's signatures. -/
inductive Call where
  | cEval (a : Addr) (e : Nat) (s : St)
  | cEvalArgs (l : List Addr) (e : Nat) (s : St)
  | cEvalSeq (l : List Addr) (e : Nat) (s : St)
  | cEvalAll (l : List Addr) (e : Nat) (s : St)
  | cApply (fa : Addr) (args : List Addr) (e : Nat) (s : St)
  | cSpecial (sp : SName) (raw : List Addr) (e : Nat) (s : St)
  | cBuiltin (b : BName) (args : List Addr) (e : Nat) (s : St)
  | cWhile (raw : List Addr) (e : Nat) (s : St)
  | cAnd (l : List Addr) (e : Nat) (s : St)
  | cOr (l : List Addr) (e : Nat) (s : St)
  | cMap (f : Addr) (l : List Addr) (e : Nat) (s : St)

inductive Res where
  | rVal (a : Addr) (s : St)
  | rLst (l : List Addr) (s : St)
  | rSt (s : St)

def interp : Nat → Call → Option Res
  | 0, _ => none
  | fuel+1, c =>
    match c with
    | .cEval a e s =>
        -- eval (lines 393-436)
        (match hGet s a with
        | none => none
        | some n =>
            match n.tag with
            | .tSymbol =>
                match n.uni with
                | .uCode code => (envGet s e code).map (fun v => .rVal v s)
                | _ => none
            | .tList =>
                match n.v_list with
                | [] => some (.rVal NILA s)
                | h :: rest =>
                    match interp fuel (.cEval h e s) with
                    | some (.rVal fa s1) =>
                        (match hGet s1 fa with
                        | none => none
                        | some fn2 =>
                            match fn2.tag with
                            | .tSpecial =>
                                match fn2.uni with
                                | .uSpecial sp => interp fuel (.cSpecial sp n.v_list e s1)
                                | _ => none
                            | .tBuiltin =>
                                (match interp fuel (.cEvalArgs rest e s1) with
                                | some (.rLst argv s2) =>
                                    let es := allocEnv s2 fn2.outer_env
                                    interp fuel (.cApply fa argv es.1 es.2)
                                | _ => none)
                            | .tFn =>
                                (match interp fuel (.cEvalArgs rest e s1) with
                                | some (.rLst argv s2) =>
                                    let es := allocEnv s2 fn2.outer_env
                                    interp fuel (.cApply fa argv es.1 es.2)
                                | _ => none)
                            | _ => some (.rVal NILA s1))
                    | _ => none
            | _ => some (.rVal a s))
    | .cEvalArgs l e s =>
        -- the argument-evaluation loop of eval (lines 422-425)
        (match l with
        | [] => some (.rLst [] s)
        | a :: rest =>
            match interp fuel (.cEval a e s) with
            | some (.rVal v s1) =>
                (match interp fuel (.cEvalArgs rest e s1) with
                | some (.rLst vs s2) => some (.rLst (v :: vs) s2)
                | _ => none)
            | _ => none)
    | .cEvalSeq l e s =>
        -- run each form, return the last value (apply lines 929-932)
        (match l with
        | [] => some (.rVal NILA s)
        | [x] => interp fuel (.cEval x e s)
        | x :: xs =>
            match interp fuel (.cEval x e s) with
            | some (.rVal _ s1) => interp fuel (.cEvalSeq xs e s1)
            | _ => none)
    | .cEvalAll l e s =>
        -- run each form, discarding results (special_while body loop)
        (match l with
        | [] => some (.rSt s)
        | x :: xs =>
            match interp fuel (.cEval x e s) with
            | some (.rVal _ s1) => interp fuel (.cEvalAll xs e s1)
            | _ => none)
    | .cApply fa args e s =>
        -- apply (lines 906-936)
        (match hGet s fa with
        | none => none
        | some f =>
            match f.tag with
            | .tBuiltin =>
                match f.uni with
                | .uBuiltin b => interp fuel (.cBuiltin b args e s)
                | _ => none
            | .tFn =>
                match f.v_list.get? 1 with
                | none => none
                | some pa =>
                    (match hGet s pa with
                    | none => none
                    | some pn =>
                        let les := allocEnv s f.outer_env
                        match bindParams pn.v_list args les.1 les.2 with
                        | none => none
                        | some s2 =>
                            if f.v_list.length - 1 < 2 then some (.rVal NILA s2)
                            else interp fuel (.cEvalSeq (f.v_list.drop 2) les.1 s2))
            | _ => some (.rVal NILA s))
    | .cSpecial sp raw e s =>
        (match sp with
        | .sDef =>
            -- special_def (lines 565-570)
            match raw.get? 1, raw.get? 2 with
            | some ka, some va =>
                (match interp fuel (.cEval va e s) with
                | some (.rVal v s1) =>
                    (match cloneN s1 v with
                    | none => none
                    | some (ca, s2) =>
                        match hGet s2 ka with
                        | none => none
                        | some kn =>
                            match kn.codeRead with
                            | none => none
                            | some code =>
                                match envSetCode s2 e code ca with
                                | none => none
                                | some s3 => some (.rVal ca s3))
                | _ => none)
            | _, _ => none
        | .sSet =>
            -- special_set (lines 584-594); `var == nil` is shared_ptr
            -- identity with the canonical nil object: address equality NILA
            match raw.get? 1, raw.get? 2 with
            | some pa, some va =>
                (match interp fuel (.cEval pa e s) with
                | some (.rVal var s1) =>
                    (match interp fuel (.cEval va e s1) with
                    | some (.rVal v s2) =>
                        (match cloneN s2 v with
                        | none => none
                        | some (ca, s3) =>
                            match hGet s3 pa with
                            | none => none
                            | some pn =>
                                if pn.tag = .tSymbol ∧ var = NILA then
                                  match pn.codeRead with
                                  | none => none
                                  | some code =>
                                      match envSetCode s3 e code ca with
                                      | none => none
                                      | some s4 => some (.rVal ca s4)
                                else
                                  match hGet s3 ca with
                                  | none => none
                                  | some cv => some (.rVal var (hSet s3 var cv)))
                    | _ => none)
                | _ => none)
            | _, _ => none
        | .sIf =>
            -- special_if (lines 572-582)
            match raw.get? 1 with
            | none => none
            | some ca =>
                (match interp fuel (.cEval ca e s) with
                | some (.rVal cv s1) =>
                    (match hGet s1 cv with
                    | none => none
                    | some cn =>
                        match cn.uni.vBoolRead with
                        | none => none
                        | some b =>
                            if b then
                              match raw.get? 2 with
                              | none => none
                              | some ta => interp fuel (.cEval ta e s1)
                            else
                              if raw.length < 4 then some (.rVal NILA s1)
                              else
                                match raw.get? 3 with
                                | none => none
                                | some ea => interp fuel (.cEval ea e s1))
                | _ => none)
        | .sFn =>
            -- special_fn (lines 596-602): a new node holding the raw forms
            -- and a new empty frame with outer = the current environment;
            -- `fn` (lines 300-305) retags the node T_FN and sets outer_env
            let na := alloc s (mkListN raw)
            let es := allocEnv na.2 (some e)
            (match hGet es.2 na.1 with
            | some nn =>
                some (.rVal na.1 (hSet es.2 na.1 { nn with tag := .tFn, outer_env := some es.1 }))
            | none => none)
        | .sBegin =>
            -- special_begin (lines 1022-1031)
            if raw.length - 1 = 0 then some (.rVal NILA s)
            else interp fuel (.cEvalSeq (raw.drop 1) e s)
        | .sWhile => interp fuel (.cWhile raw e s)
        | .sQuote =>
            -- special_quote (lines 891-894)
            match raw.get? 1 with
            | none => none
            | some x => some (.rVal x s)
        | .sAndAnd => interp fuel (.cAnd (raw.drop 1) e s)
        | .sOrOr => interp fuel (.cOr (raw.drop 1) e s))
    | .cWhile raw e s =>
        -- special_while (lines 811-821)
        (match raw.get? 1 with
        | none => none
        | some ca =>
            match interp fuel (.cEval ca e s) with
            | some (.rVal cv s1) =>
                (match hGet s1 cv with
                | none => none
                | some cn =>
                    match cn.uni.vBoolRead with
                    | none => none
                    | some b =>
                        if b then
                          match interp fuel (.cEvalAll (raw.drop 2) e s1) with
                          | some (.rSt s2) => interp fuel (.cWhile raw e s2)
                          | _ => none
                        else some (.rVal NILA s1))
            | _ => none)
    | .cAnd l e s =>
        -- special_andand (lines 785-794): returns node_true / node_false
        (match l with
        | [] => some (.rVal TRUEA s)
        | x :: xs =>
            match interp fuel (.cEval x e s) with
            | some (.rVal v s1) =>
                (match hGet s1 v with
                | none => none
                | some vn =>
                    match vn.uni.vBoolRead with
                    | none => none
                    | some b => if b then interp fuel (.cAnd xs e s1) else some (.rVal FALSEA s1))
            | _ => none)
    | .cOr l e s =>
        -- special_oror (lines 796-805)
        (match l with
        | [] => some (.rVal FALSEA s)
        | x :: xs =>
            match interp fuel (.cEval x e s) with
            | some (.rVal v s1) =>
                (match hGet s1 v with
                | none => none
                | some vn =>
                    match vn.uni.vBoolRead with
                    | none => none
                    | some b => if b then some (.rVal TRUEA s1) else interp fuel (.cOr xs e s1))
            | _ => none)
    | .cBuiltin b args e s =>
        (match b with
        | .bPlus =>
            -- builtin_plus (lines 604-624); empty returns the shared node_0
            if args.isEmpty then some (.rVal N0A s)
            else
              match args.mapM (hGet s) with
              | none => none
              | some nodes =>
                  match builtin_plus_v nodes with
                  | none => none
                  | some r => some (.rVal (alloc s r).1 (alloc s r).2)
        | .bMinus =>
            if args.isEmpty then some (.rVal N0A s)
            else
              match args.mapM (hGet s) with
              | none => none
              | some nodes =>
                  match builtin_minus_v nodes with
                  | none => none
                  | some r => some (.rVal (alloc s r).1 (alloc s r).2)
        | .bMul =>
            if args.isEmpty then some (.rVal N1A s)
            else
              match args.mapM (hGet s) with
              | none => none
              | some nodes =>
                  match builtin_mul_v nodes with
                  | none => none
                  | some r => some (.rVal (alloc s r).1 (alloc s r).2)
        | .bDiv =>
            if args.isEmpty then some (.rVal N1A s)
            else
              match args.mapM (hGet s) with
              | none => none
              | some nodes =>
                  match builtin_div_v nodes with
                  | none => none
                  | some r => some (.rVal (alloc s r).1 (alloc s r).2)
        | .bList =>
            -- builtin_list (lines 896-904): new list node sharing elements
            some (.rVal (alloc s (mkListN args)).1 (alloc s (mkListN args)).2)
        | .bMap =>
            -- builtin_map (lines 962-976)
            match args.get? 0, args.get? 1 with
            | some f, some la =>
                (match hGet s la with
                | none => none
                | some ln =>
                    match interp fuel (.cMap f ln.v_list e s) with
                    | some (.rLst acc s2) =>
                        some (.rVal (alloc s2 (mkListN acc)).1 (alloc s2 (mkListN acc)).2)
                    | _ => none)
            | _, _ => none
        | .bPushBackD =>
            -- builtin_push_backd (lines 995-1000): clone the item, append
            -- to the list node in place, return the list
            match args.get? 0, args.get? 1 with
            | some la, some ia =>
                (match cloneN s ia with
                | none => none
                | some (ca, s1) =>
                    match hGet s1 la with
                    | none => none
                    | some ln =>
                        some (.rVal la (hSet s1 la { ln with v_list := ln.v_list ++ [ca] })))
            | _, _ => none
        | .bPopBackD =>
            -- builtin_pop_backd (lines 1002-1008): `v.back()` on an empty
            -- vector is UB; otherwise remove and return the last element
            match args.get? 0 with
            | none => none
            | some la =>
                (match hGet s la with
                | none => none
                | some ln =>
                    match ln.v_list.getLast? with
                    | none => none
                    | some x =>
                        some (.rVal x (hSet s la { ln with v_list := ln.v_list.dropLast })))
        | .bLength =>
            -- builtin_length (lines 1017-1020)
            match args.get? 0 with
            | none => none
            | some la =>
                (match hGet s la with
                | none => none
                | some ln =>
                    some (.rVal (alloc s (mkInt ln.v_list.length)).1
                                (alloc s (mkInt ln.v_list.length)).2))
        | _ => none)
    | .cMap f l e s =>
        -- the per-element loop of builtin_map (lines 971-974)
        (match l with
        | [] => some (.rLst [] s)
        | x :: xs =>
            match interp fuel (.cApply f [x] e s) with
            | some (.rVal r s1) =>
                (match interp fuel (.cMap f xs e s1) with
                | some (.rLst rs s2) => some (.rLst (r :: rs) s2)
                | _ => none)
            | _ => none)

/-- Models `eval` (lines 393-436). -/
def evalN (fuel : Nat) (a : Addr) (e : Nat) (s : St) : Option (Addr × St) :=
  match interp fuel (.cEval a e s) with
  | some (.rVal v s2) => some (v, s2)
  | _ => none

/-- Models `apply` (lines 906-936). -/
def applyN (fuel : Nat) (fa : Addr) (args : List Addr) (e : Nat) (s : St) :
    Option (Addr × St) :=
  match interp fuel (.cApply fa args e s) with
  | some (.rVal v s2) => some (v, s2)
  | _ => none

/-- A special form's handler call. -/
def specialRun (fuel : Nat) (sp : SName) (raw : List Addr) (e : Nat) (s : St) :
    Option (Addr × St) :=
  match interp fuel (.cSpecial sp raw e s) with
  | some (.rVal v s2) => some (v, s2)
  | _ => none

/-- A builtin's handler call. -/
def builtinRun (fuel : Nat) (b : BName) (args : List Addr) (e : Nat) (s : St) :
    Option (Addr × St) :=
  match interp fuel (.cBuiltin b args e s) with
  | some (.rVal v s2) => some (v, s2)
  | _ => none

/-- Evaluate a list of forms in order, returning the last value. -/
def evalSeqN (fuel : Nat) (l : List Addr) (e : Nat) (s : St) : Option (Addr × St) :=
  match interp fuel (.cEvalSeq l e s) with
  | some (.rVal v s2) => some (v, s2)
  | _ => none

/-! ## Printing (libparen.cpp lines 64-137) -/

/-- Models `Node::type_str` (lines 107-134).  Note the source strings
`"std::string"` and `"std::thread"`. -/
def typeStr (n : NodeR) : String :=
  match n.tag with
  | .tNil => "nil"
  | .tInt => "int"
  | .tDouble => "double"
  | .tBool => "bool"
  | .tString => "std::string"
  | .tSymbol => "symbol"
  | .tList => "list"
  | .tBuiltin => "builtin"
  | .tSpecial => "special"
  | .tFn => "fn"
  | .tThread => "std::thread"

/-- Models `Node::to_string` (lines 64-106), packed into one fuel-indexed function
(`inl` = one node, `inr` = the space-separated element loop for lists).
The `%.16g` double formatting and the `%p` pointer formatting of builtins
are not modelled (no claim prints a double, a builtin or a special). -/
def toStrI : Nat → St → (Addr ⊕ List Addr) → Option String
  | 0, _, _ => none
  | fuel+1, s, .inl a =>
      (match hGet s a with
      | none => none
      | some n =>
          match n.tag with
          | .tNil => some ""
          | .tInt =>
              match n.uni with
              | .uInt v => some (toString v)
              | _ => none
          | .tBool =>
              match n.uni with
              | .uBool b => some (if b then "true" else "false")
              | _ => none
          | .tString => some n.v_string
          | .tSymbol => some n.v_string
          | .tList =>
              (match toStrI fuel s (.inr n.v_list) with
              | none => none
              | some inner => some ("(" ++ inner ++ ")"))
          | .tFn =>
              (match toStrI fuel s (.inr n.v_list) with
              | none => none
              | some inner => some ("(" ++ inner ++ ")"))
          | .tThread => some ""
          | _ => none)
  | fuel+1, s, .inr l =>
      (match l with
      | [] => some ""
      | [x] => toStrI fuel s (.inl x)
      | x :: xs =>
          match toStrI fuel s (.inl x) with
          | none => none
          | some a =>
              match toStrI fuel s (.inr xs) with
              | none => none
              | some b => some (a ++ " " ++ b))

def toStrN (fuel : Nat) (s : St) (a : Addr) : Option String := toStrI fuel s (.inl a)

/-- Models `Node::str_with_type` (lines 135-137). -/
def strWithType (fuel : Nat) (s : St) (a : Addr) : Option String :=
  match hGet s a, toStrN fuel s a with
  | some n, some str => some (str ++ " : " ++ typeStr n)
  | _, _ => none

/-! ## Kernel initialization (libparen.cpp lines 1140-1223)

`init` creates the global environment and installs the bindings below in
source order, interning each name with `ToCode`.  Note line 1196:

```cpp
global_env->env[ToCode("std::map")] = std::make_shared<Node>(builtin_map);
```

the mapping builtin is bound to the NAME `"std::map"`, and no binding for
the name `"map"` is installed (unlike `string`, which lines 1187-1189 bind
under both `"std::string"` and `"string"`). -/

inductive InitV where
  | vBool (b : Bool)
  | vDouble (d : Rat)
  | vSpec (sp : SName)
  | vBfun (b : BName)

def initNode : InitV → NodeR
  | .vBool b => mkBool b
  | .vDouble d => mkDouble d
  | .vSpec sp => mkSpecial sp
  | .vBfun b => mkBuiltin b

/-- The bindings of `init`, in source order (lines 1145-1214). -/
def initBindings : List (String × InitV) :=
  [("true", .vBool true), ("false", .vBool false),
   ("E", .vDouble 2.71828182845904523536), ("PI", .vDouble 3.14159265358979323846),
   ("def", .vSpec .sDef), ("set", .vSpec .sSet), ("if", .vSpec .sIf),
   ("fn", .vSpec .sFn), ("begin", .vSpec .sBegin), ("while", .vSpec .sWhile),
   ("quote", .vSpec .sQuote), ("&&", .vSpec .sAndAnd), ("||", .vSpec .sOrOr),
   ("std::thread", .vBfun .bThread),
   ("eval", .vBfun .bEval), ("+", .vBfun .bPlus), ("-", .vBfun .bMinus),
   ("*", .vBfun .bMul), ("/", .vBfun .bDiv), ("<", .vBfun .bLt),
   ("^", .vBfun .bCaret), ("%", .vBfun .bPercent), ("sqrt", .vBfun .bSqrt),
   ("++", .vBfun .bPlusPlus), ("--", .vBfun .bMinusMinus),
   ("floor", .vBfun .bFloor), ("ceil", .vBfun .bCeil), ("ln", .vBfun .bLn),
   ("log10", .vBfun .bLog10), ("rand", .vBfun .bRand), ("==", .vBfun .bEqEq),
   ("<", .vBfun .bLt),
   ("!", .vBfun .bNot), ("strlen", .vBfun .bStrlen), ("char-at", .vBfun .bCharAt),
   ("chr", .vBfun .bChr), ("int", .vBfun .bInt), ("double", .vBfun .bDouble),
   ("std::string", .vBfun .bString), ("string", .vBfun .bString),
   ("read-std::string", .vBfun .bReadString), ("type", .vBfun .bType),
   ("list", .vBfun .bList), ("apply", .vBfun .bApply), ("fold", .vBfun .bFold),
   ("std::map", .vBfun .bMap), ("filter", .vBfun .bFilter),
   ("push-back!", .vBfun .bPushBackD), ("pop-back!", .vBfun .bPopBackD),
   ("nth", .vBfun .bNth), ("length", .vBfun .bLength),
   ("pr", .vBfun .bPr), ("prn", .vBfun .bPrn), ("exit", .vBfun .bExit),
   ("system", .vBfun .bSystem), ("cons", .vBfun .bCons),
   ("read-line", .vBfun .bReadLine), ("slurp", .vBfun .bSlurp),
   ("spit", .vBfun .bSpit), ("join", .vBfun .bJoin), ("import", .vBfun .bImport)]

/-- One `global_env->env[ToCode(name)] = make_shared<Node>(...)` line. -/
def bindOne (acc : SymTab × St) (p : String × InitV) : SymTab × St :=
  let ct := ToCode p.1 acc.1
  let ar := alloc acc.2 (initNode p.2)
  match eGet ar.2 0 with
  | some fr => (ct.2, eSet ar.2 0 ⟨mapInsert fr.map ct.1 ar.1, fr.outer⟩)
  | none => (ct.2, ar.2)

/-- State after the five global node objects and
`global_env = make_shared<environment>(environment())` plus the binding
lines of `init`. -/
def initState : SymTab × St :=
  initBindings.foldl bindOne (SymTab.empty, ⟨globalNodes, [⟨[], none⟩]⟩)

/-- Modelled from the spec: the prelude `library.paren` is code of the
repository that is not under src/.  Spec §4.8 and §1 describe it only as "a
source file of user-level definitions" and §4.6 lists `map`, `fold`,
`filter`, `apply` among the BUILTIN primitives, so the modelled prelude
installs no binding for `map`; `init` with a missing prelude prints an
error and continues (line 1221). -/
def preludeLoad (x : SymTab × St) : SymTab × St := x

def postInit : SymTab × St := preludeLoad initState

/-! ## Building programs

Surface S-expressions, allocated into the store exactly as the reader
builds them (`Parser::parse`, lines 243-273): numbers become `Node(int)`
nodes, symbols intern their name with `ToCode`, list nodes are allocated
after their children. -/

inductive SExp where
  | sInt (n : Int)
  | sSym (name : String)
  | sList (l : List SExp)

/-- Allocate a surface S-expression into the store exactly as the reader
builds it, packed into one fuel-indexed function (`inl` = one form, `inr` =
a sequence of forms); list nodes are allocated after their children, and
symbols intern their name with `ToCode`. -/
def allocS : Nat → (SExp ⊕ List SExp) → SymTab × St →
    Option ((Addr ⊕ List Addr) × (SymTab × St))
  | 0, _, _ => none
  | _+1, .inl (.sInt n), ts =>
      let r := alloc ts.2 (mkInt n)
      some (.inl r.1, (ts.1, r.2))
  | _+1, .inl (.sSym name), ts =>
      let ct := ToCode name ts.1
      let r := alloc ts.2 (mkSym name ct.1)
      some (.inl r.1, (ct.2, r.2))
  | fuel+1, .inl (.sList l), ts =>
      (match allocS fuel (.inr l) ts with
      | some (.inr as2, ts2) =>
          let r := alloc ts2.2 (mkListN as2)
          some (.inl r.1, (ts2.1, r.2))
      | _ => none)
  | _+1, .inr [], ts => some (.inr [], ts)
  | fuel+1, .inr (x :: xs), ts =>
      (match allocS fuel (.inl x) ts with
      | some (.inl a, ts1) =>
          (match allocS fuel (.inr xs) ts1 with
          | some (.inr as2, ts2) => some (.inr (a :: as2), ts2)
          | _ => none)
      | _ => none)

/-- Allocate one form with ample fuel. -/
def allocSExp (x : SExp) (ts : SymTab × St) : Option (Addr × (SymTab × St)) :=
  match allocS 1000 (.inl x) ts with
  | some (.inl a, ts2) => some (a, ts2)
  | _ => none

/-- Allocate a sequence of top-level forms. -/
def allocSExps (l : List SExp) (ts : SymTab × St) : Option (List Addr × (SymTab × St)) :=
  match allocS 1000 (.inr l) ts with
  | some (.inr as2, ts2) => some (as2, ts2)
  | _ => none

/-- Evaluate one top-level form against the freshly initialized kernel
(global environment is frame 0), as `eval_string` does for a single form. -/
def runTop (fuel : Nat) (prog : SExp) : Option (Addr × St) :=
  match allocSExp prog postInit with
  | some (a, ts) => evalN fuel a 0 ts.2
  | none => none

/-- Evaluate a sequence of top-level forms (`eval_all`, lines 446-454):
all forms are read first, then evaluated in order against the global
environment; the value of the last is returned. -/
def runProgram (fuel : Nat) (prog : List SExp) : Option (Addr × St) :=
  match allocSExps prog postInit with
  | some (as2, ts) => evalSeqN fuel as2 0 ts.2
  | none => none

/-- The printed REPL line for a result. -/
def runPrint (res : Option (Addr × St)) : Option String :=
  match res with
  | some (a, s) => strWithType 32 s a
  | none => none

/-- Unboundness of a symbol code along an environment chain, indexed by the
height of the chain walk. -/
inductive NotBound (s : St) (code : Nat) : Nat → Nat → Prop where
  | last {e : Nat} {fr : Frame} : eGet s e = some fr → fr.map.lookup code = none →
      fr.outer = none → NotBound s code e 0
  | step {e o h : Nat} {fr : Frame} : eGet s e = some fr → fr.map.lookup code = none →
      fr.outer = some o → NotBound s code o h → NotBound s code e (h + 1)

/-- A program whose function body re-`def`s a global: `(def g 10)`, then
`((fn () (def g 99)))`, then `g`. -/
def defProg : List SExp :=
  [.sList [.sSym "def", .sSym "g", .sInt 10],
   .sList [.sList [.sSym "fn", .sList [], .sList [.sSym "def", .sSym "g", .sInt 99]]],
   .sSym "g"]

/-- The C9 counterexample program: `y` is unbound, so `(def x y)` clones the
canonical nil into a FRESH nil-valued cell for `x`; then a function body
executes `(set x 7)`. -/
def setProg : List SExp :=
  [.sList [.sSym "def", .sSym "x", .sSym "y"],
   .sList [.sSym "def", .sSym "f",
           .sList [.sSym "fn", .sList [], .sList [.sSym "set", .sSym "x", .sInt 7]]],
   .sList [.sSym "f"],
   .sSym "x"]

/-- Models `(map (fn (x) (* x x)) (list 1 2 3))`. -/
def mapProgAst : SExp :=
  .sList [.sSym "map",
          .sList [.sSym "fn", .sList [.sSym "x"], .sList [.sSym "*", .sSym "x", .sSym "x"]],
          .sList [.sSym "list", .sInt 1, .sInt 2, .sInt 3]]

/-- Models `(std::map (fn (x) (* x x)) (list 1 2 3))`. -/
def stdMapProgAst : SExp :=
  .sList [.sSym "std::map",
          .sList [.sSym "fn", .sList [.sSym "x"], .sList [.sSym "*", .sSym "x", .sSym "x"]],
          .sList [.sSym "list", .sInt 1, .sInt 2, .sInt 3]]

/-! ## The compile pass and the macro expander (libparen.cpp lines 307-391)

`compile` is a pure tree transformation (it allocates fresh nodes and never
mutates its input), so it is embedded at the level of form trees rather
than store addresses.  `macros` is the process-wide table
`std::map<std::string, std::vector<snode>>`; an entry holds the pair
(parameter list, body).  `compile` can diverge (a macro whose expansion
contains its own name re-enters `compile` forever — a stack overflow in the
host), so the embedding is fuel-indexed. -/

inductive Form where
  | fnil
  | fint (n : Int)
  | fdouble (d : Rat)
  | fbool (b : Bool)
  | fstr (s : String)
  | fsym (s : String)
  | flist (l : List Form)

/-- A head test `func->type == T_SYMBOL && func->v_string == NAME`. -/
def isSymNamed (f : Form) (nm : String) : Bool :=
  match f with
  | .fsym s => s = nm
  | _ => false

/-- The `v_string` member as `compile`/`macroexpand`/`apply_macro` read it:
empty for every node built without a string. -/
def vstr : Form → String
  | .fstr s => s
  | .fsym s => s
  | _ => ""

/-- The `v_list` member: empty for every non-list node. -/
def formList : Form → List Form
  | .flist l => l
  | _ => []

/-- Models `std::map<std::string, _>::operator[] =` : insert or assign. -/
def upsert {β : Type} : List (String × β) → String → β → List (String × β)
  | [], k, v => [(k, v)]
  | (k0, v0) :: tl, k, v =>
      if k0 = k then (k0, v) :: tl else (k0, v0) :: upsert tl k v

/-- The macro table: name → (parameter list, body). -/
abbrev MTab := List (String × (Form × Form))

/-- Models `apply_macro` (lines 309-329), fuel-indexed and packed over
`Form ⊕ List Form` (`inr` is the loop over a list body's elements).  An
element whose `v_string` is `"..."` splices `vars["..."]`; when `"..."` is
not a key, `operator[]` default-constructs a null `snode` whose dereference
crashes — the error branch.  A non-list body is replaced by its `v_string`
binding when present. -/
def macroSubst : Nat → (Form ⊕ List Form) → List (String × Form) →
    Option (Form ⊕ List Form)
  | 0, _, _ => none
  | fuel+1, .inl b, vars =>
      match b with
      | .flist l =>
          (match macroSubst fuel (.inr l) vars with
          | some (.inr r) => some (.inl (.flist r))
          | _ => none)
      | _ =>
          match vars.lookup (vstr b) with
          | some v => some (.inl v)
          | none => some (.inl b)
  | _+1, .inr [], _ => some (.inr [])
  | fuel+1, .inr (b :: bs), vars =>
      if vstr b = "..." then
        match vars.lookup "..." with
        | none => none
        | some vargs =>
            (match macroSubst fuel (.inr bs) vars with
            | some (.inr r) => some (.inr (formList vargs ++ r))
            | _ => none)
      else
        (match macroSubst fuel (.inl b) vars with
        | some (.inl rb) =>
            (match macroSubst fuel (.inr bs) vars with
            | some (.inr r) => some (.inr (rb :: r))
            | _ => none)
        | _ => none)

/-- The binding loop of `macroexpand` (lines 337-350): bind each parameter
symbol's `v_string` to the argument form at the matching position
(`nList.at(i + 1)` throws when out of range — the error branch); the
parameter `"..."` captures all remaining argument forms as a list and stops
the loop. -/
def bindMacroVars : List Form → List Form → Nat → List (String × Form) →
    Option (List (String × Form))
  | [], _, _, acc => some acc
  | a :: as2, nList, i, acc =>
      if vstr a = "..." then
        some (upsert acc "..." (.flist (nList.drop (i + 1))))
      else
        match nList.get? (i + 1) with
        | none => none
        | some arg => bindMacroVars as2 nList (i + 1) (upsert acc (vstr a) arg)

/-- Models `macroexpand` (lines 331-354). -/
def macroexpandF (fuel : Nat) (M : MTab) (n : Form) : Option Form :=
  match (formList n).get? 0 with
  | none => none
  | some h =>
      match M.lookup (vstr h) with
      | none => some n
      | some mac =>
          match bindMacroVars (formList mac.1) (formList n) 0 [] with
          | none => none
          | some vars =>
              match macroSubst fuel (.inl mac.2) vars with
              | some (.inl r) => some r
              | _ => none

/-- Models `compile` (lines 356-391), packed over `Form ⊕ List Form` (`inr` is the
child loop of the final branch, which recompiles every child including the
head, threading the macro table left to right). -/
def compileI : Nat → MTab → (Form ⊕ List Form) → Option ((Form ⊕ List Form) × MTab)
  | 0, _, _ => none
  | fuel+1, M, .inl f =>
      (match f with
      | .flist l =>
          match l with
          | [] => some (.inl f, M)
          | h :: _ =>
              match compileI fuel M (.inl h) with
              | some (.inl func, M1) =>
                  if isSymNamed func "defmacro" then
                    -- (defmacro NAME (PARAMS) BODY): record and yield nil;
                    -- v_list[1..3] are read with unchecked operator[]
                    match l.get? 1, l.get? 2, l.get? 3 with
                    | some nm, some ps, some bd =>
                        some (.inl .fnil, upsert M1 (vstr nm) (ps, bd))
                    | _, _, _ => none
                  else if isSymNamed func "quote" then
                    some (.inl f, M1)
                  else if (M1.lookup (vstr func)).isSome then
                    match macroexpandF fuel M1 f with
                    | none => none
                    | some expanded => compileI fuel M1 (.inl expanded)
                  else
                    (match compileI fuel M1 (.inr l) with
                    | some (.inr r, M2) => some (.inl (.flist r), M2)
                    | _ => none)
              | _ => none
      | _ => some (.inl f, M))
  | _+1, M, .inr [] => some (.inr [], M)
  | fuel+1, M, .inr (x :: xs) =>
      (match compileI fuel M (.inl x) with
      | some (.inl rx, M1) =>
          (match compileI fuel M1 (.inr xs) with
          | some (.inr rs, M2) => some (.inr (rx :: rs), M2)
          | _ => none)
      | _ => none)

/-- Models `compile` on one form. -/
def compileF (fuel : Nat) (M : MTab) (f : Form) : Option (Form × MTab) :=
  match compileI fuel M (.inl f) with
  | some (.inl g, M2) => some (g, M2)
  | _ => none

/-- The symbol `defmacro` does not occur in the form. -/
inductive NoDM : Form → Prop where
  | fnil : NoDM .fnil
  | fint {n : Int} : NoDM (.fint n)
  | fdouble {d : Rat} : NoDM (.fdouble d)
  | fbool {b : Bool} : NoDM (.fbool b)
  | fstr {s : String} : NoDM (.fstr s)
  | fsym {s : String} : s ≠ "defmacro" → NoDM (.fsym s)
  | flist {l : List Form} : (∀ x ∈ l, NoDM x) → NoDM (.flist l)

/-- The macro table's recorded parameter lists and bodies contain no
`defmacro` symbol. -/
def NoDMTab (M : MTab) : Prop := ∀ p ∈ M, NoDM p.2.1 ∧ NoDM p.2.2

def NoDMs : (Form ⊕ List Form) → Prop
  | .inl f => NoDM f
  | .inr l => ∀ x ∈ l, NoDM x


/-- Models `(begin (m 3) (defmacro m (a) (+ a a)))` — a macro used textually
before its `defmacro`. -/
def c8Form : Form :=
  .flist [.fsym "begin",
          .flist [.fsym "m", .fint 3],
          .flist [.fsym "defmacro", .fsym "m", .flist [.fsym "a"],
                  .flist [.fsym "+", .fsym "a", .fsym "a"]]]

/-- First compile of `c8Form`: children are compiled left to right, so
`(m 3)` is compiled while `m` is not yet in the table and survives; the
`defmacro` records `m` and becomes nil. -/
def c8Once : Form :=
  .flist [.fsym "begin", .flist [.fsym "m", .fint 3], .fnil]

def c8Tab : MTab := [("m", (.flist [.fsym "a"], .flist [.fsym "+", .fsym "a", .fsym "a"]))]

/-- Second compile: `m` is now in the table, so `(m 3)` expands. -/
def c8Twice : Form :=
  .flist [.fsym "begin", .flist [.fsym "+", .fint 3, .fint 3], .fnil]

lemma lookup_none_of_append {β : Type} {l : List (String × β)} {k k' : String} {v : β}
    (h : l.lookup k = none) (hne : k ≠ k') :
    (l ++ [(k', v)]).lookup k = none := by
  induction l with
  | nil =>
      simp only [List.nil_append, List.lookup]
      cases hb : (k == k')
      · simp [List.lookup, hb]
      · exact absurd (beq_iff_eq.mp hb) hne
  | cons p tl ih =>
      simp only [List.lookup, List.cons_append] at h ⊢
      cases hb : (k == p.1) <;> simp only [hb] at h ⊢
      · exact ih h
      · cases h

lemma lookup_append_self {β : Type} {l : List (String × β)} {k : String} {v : β}
    (h : l.lookup k = none) :
    (l ++ [(k, v)]).lookup k = some v := by
  induction l with
  | nil => simp [List.lookup]
  | cons p tl ih =>
      simp only [List.lookup, List.cons_append] at h ⊢
      cases hb : (k == p.1) <;> simp only [hb] at h ⊢
      · exact ih h
      · cases h

lemma lookup_mem {β : Type} {l : List (String × β)} {k : String} {v : β}
    (h : l.lookup k = some v) : (k, v) ∈ l := by
  induction l with
  | nil => simp [List.lookup] at h
  | cons p tl ih =>
      simp only [List.lookup] at h
      cases hb : (k == p.1) <;> simp only [hb] at h
      · exact List.mem_cons_of_mem _ (ih h)
      · have hk := beq_iff_eq.mp hb
        injection h with h2
        subst h2
        subst hk
        cases p
        exact List.mem_cons_self _ _

lemma lookup_none_not_mem_keys {β : Type} {l : List (String × β)} {k : String}
    (h : l.lookup k = none) : k ∉ l.map Prod.fst := by
  induction l with
  | nil => simp
  | cons p tl ih =>
      simp only [List.lookup] at h
      cases hb : (k == p.1) <;> simp only [hb] at h
      · simp only [List.map_cons, List.mem_cons]
        rintro (rfl | hmem)
        · simp at hb
        · exact ih h hmem
      · cases h

lemma wf_toCode_preserved {t : SymTab} (h : t.WF) (name : String) :
    (ToCode name t).2.WF := by
  obtain ⟨hlen, hnodup, hcons⟩ := h
  unfold ToCode
  cases hl : t.symcode.lookup name with
  | some c => exact ⟨hlen, hnodup, hcons⟩
  | none =>
      refine ⟨by simp [hlen], ?_, ?_⟩
      · rw [List.map_append]
        apply List.Nodup.append hnodup (by simp)
        intro a ha hb
        simp only [List.map_cons, List.map_nil, List.mem_singleton] at hb
        subst hb
        exact lookup_none_not_mem_keys hl ha
      · intro p hp
        rcases List.mem_append.mp hp with hp | hp
        · have hg := hcons p hp
          obtain ⟨hlt, -⟩ := List.get?_eq_some.mp hg
          rw [List.get?_append hlt]
          exact hg
        · simp only [List.mem_singleton] at hp
          subst hp
          simp [hlen]

/-- C6: symbol interning is a deterministic round trip.  For a well-formed
interning state `t` and any name `n`:
1. `to_code` is stable — repeating the call returns the same code and leaves
   the state unchanged;
2. `name_of (to_code n) = n` after interning — `symname` at the returned
   code holds `n`;
3. an existing name-to-code mapping is never changed — every pair of the old
   `symcode` table is still present afterwards;
4. codes are dense — a name not yet interned receives code equal to the
   number of names interned so far (so the k-th distinct name gets k-1);
and well-formedness is preserved. -/
theorem toCode_round_trip (t : SymTab) (n : String) (h : t.WF) :
    (ToCode n ((ToCode n t).2)).1 = (ToCode n t).1 ∧
    (ToCode n ((ToCode n t).2)).2 = (ToCode n t).2 ∧
    ((ToCode n t).2).symname.get? (ToCode n t).1 = some n ∧
    (∀ p ∈ t.symcode, p ∈ (ToCode n t).2.symcode) ∧
    (t.symcode.lookup n = none → (ToCode n t).1 = t.symname.length) ∧
    ((ToCode n t).2).WF := by
  obtain ⟨hlen, hnodup, hcons⟩ := h
  have hwf' := wf_toCode_preserved ⟨hlen, hnodup, hcons⟩ n
  cases hl : t.symcode.lookup n with
  | some c =>
      have he : ToCode n t = (c, t) := by unfold ToCode; rw [hl]
      have hmem := lookup_mem hl
      have hname := hcons _ hmem
      rw [he]
      refine ⟨by rw [he], by rw [he], hname, fun p hp => hp, ?_, he ▸ hwf'⟩
      intro hc
      cases hc
  | none =>
      have he : ToCode n t =
          (t.symcode.length, ⟨t.symcode ++ [(n, t.symcode.length)], t.symname ++ [n]⟩) := by
        unfold ToCode; rw [hl]
      have he2 : ToCode n (ToCode n t).2 = ((ToCode n t).1, (ToCode n t).2) := by
        rw [he]
        unfold ToCode
        simp only [lookup_append_self hl]
      refine ⟨by rw [he2], by rw [he2], ?_, ?_, fun _ => by rw [he]; exact hlen, hwf'⟩
      · rw [he]
        rw [List.get?_append_right (by simp [hlen])]
        simp [hlen]
      · intro p hp
        rw [he]
        exact List.mem_append_left _ hp

/-- Witness for `toCode_round_trip`: the empty interning state is
well-formed and interning a first concrete name gives code 0 with the
round-trip properties. -/
theorem toCode_round_trip_witness :
    SymTab.empty.WF ∧
    (ToCode "x" ((ToCode "x" SymTab.empty).2)).1 = (ToCode "x" SymTab.empty).1 ∧
    ((ToCode "x" SymTab.empty).2).symname.get? (ToCode "x" SymTab.empty).1 = some "x" := by
  have h := toCode_round_trip SymTab.empty "x" (by decide)
  exact ⟨by decide, h.1, h.2.2.1⟩

lemma get?_isSome_of_le {s : List Char} {last pos : Nat}
    (hlen : last + 1 = s.length) (hpos : pos ≤ last) :
    ∃ c, s.get? pos = some c := by
  have hl : pos < s.length := by omega
  exact ⟨s.get ⟨pos, hl⟩, List.get?_eq_get hl⟩

lemma scanStr_ok {s : List Char} {last : Nat}
    (hlen : last + 1 = s.length) (hnb : s.get? last ≠ some '\\') :
    ∀ (fuel : Nat) (pos : Nat) (acc : List Char) (unc : Int),
      last + 2 - pos < fuel →
      ∃ acc2 p2 unc2, scanStr fuel s last pos acc unc = .ok acc2 p2 unc2 ∧ pos ≤ p2 := by
  intro fuel
  induction fuel with
  | zero => intro pos acc unc hf; omega
  | succ f ih =>
      intro pos acc unc hf
      by_cases hpos : pos ≤ last
      · obtain ⟨c, hc⟩ := get?_isSome_of_le hlen hpos
        rw [List.get?_eq_getElem?] at hc
        by_cases hq : c = '"'
        · refine ⟨acc, pos, unc - 1, ?_, le_refl _⟩
          simp [scanStr, hpos, strAt, hc, hq]
        · by_cases hbs : c = '\\'
          · have hne : pos ≠ last := fun he => hnb (by
              rw [List.get?_eq_getElem?, ← he, hc, hbs])
            have hlt : pos + 1 ≤ last := by omega
            obtain ⟨d, hd⟩ := get?_isSome_of_le hlen hlt
            rw [List.get?_eq_getElem?] at hd
            have hred : scanStr (f + 1) s last pos acc unc =
                scanStr f s last (pos + 2)
                  (acc ++ [if d = 'r' then '\r' else if d = 'n' then '\n'
                           else if d = 't' then '\t' else d]) unc := by
              simp [scanStr, hpos, strAt, hc, hq, hbs, hd]
            rw [hred]
            obtain ⟨a2, p2, u2, heq, hle⟩ := ih (pos + 2) _ unc (by omega)
            exact ⟨a2, p2, u2, heq, by omega⟩
          · have hred : scanStr (f + 1) s last pos acc unc =
                scanStr f s last (pos + 1) (acc ++ [c]) unc := by
              simp [scanStr, hpos, strAt, hc, hq, hbs]
            rw [hred]
            obtain ⟨a2, p2, u2, heq, hle⟩ := ih (pos + 1) _ unc (by omega)
            exact ⟨a2, p2, u2, heq, by omega⟩
      · exact ⟨acc, pos, unc, by simp [scanStr, hpos], le_refl _⟩

lemma skipCom_ok {s : List Char} {last : Nat}
    (hlen : last + 1 = s.length) :
    ∀ (fuel : Nat) (pos : Nat),
      last + 1 - pos < fuel →
      ∃ p2, skipCom fuel s last pos = .ok p2 ∧ pos < p2 := by
  intro fuel
  induction fuel with
  | zero => intro pos hf; omega
  | succ f ih =>
      intro pos hf
      by_cases hpos : pos + 1 ≤ last
      · obtain ⟨c, hc⟩ := get?_isSome_of_le hlen hpos
        rw [List.get?_eq_getElem?] at hc
        by_cases hnl : c = '\n'
        · exact ⟨pos + 1, by simp [skipCom, hpos, strAt, hc, hnl], by omega⟩
        · have hred : skipCom (f + 1) s last pos = skipCom f s last (pos + 1) := by
            simp [skipCom, hpos, strAt, hc, hnl]
          rw [hred]
          obtain ⟨p2, heq, hlt⟩ := ih (pos + 1) (by omega)
          exact ⟨p2, heq, by omega⟩
      · exact ⟨pos + 1, by simp [skipCom, hpos], by omega⟩

lemma tokLoop_ok {s : List Char} {last : Nat}
    (hlen : last + 1 = s.length) (hnb : s.get? last ≠ some '\\') :
    ∀ (fuel : Nat) (pos : Nat) (acc : List Char) (ret : List String) (unc : Int),
      last + 1 - pos < fuel →
      ∃ toks u2, tokLoop fuel s last pos acc ret unc = .ok toks u2 := by
  intro fuel
  induction fuel with
  | zero => intro pos acc ret unc hf; omega
  | succ f ih =>
      intro pos acc ret unc hf
      by_cases hpos : pos ≤ last
      · obtain ⟨c, hc⟩ := get?_isSome_of_le hlen hpos
        rw [List.get?_eq_getElem?] at hc
        by_cases hws : c = ' ' ∨ c = '\t' ∨ c = '\r' ∨ c = '\n'
        · have hred : tokLoop (f + 1) s last pos acc ret unc =
              tokLoop f s last (pos + 1) [] (emitTok acc ret) unc := by
            simp [tokLoop, hpos, strAt, hc, hws]
          rw [hred]
          exact ih (pos + 1) [] _ unc (by omega)
        · by_cases hcm : c = ';' ∨ (pos < last ∧ c = '#' ∧ sIdx s (pos + 1) = '!')
          · obtain ⟨p2, heq, hlt⟩ := skipCom_ok hlen (last + 2) pos (by omega)
            have hred : tokLoop (f + 1) s last pos acc ret unc =
                tokLoop f s last (p2 + 1) [] (emitTok acc ret) unc := by
              simp [tokLoop, hpos, strAt, hc, hws, hcm, heq]
            rw [hred]
            exact ih (p2 + 1) [] _ unc (by omega)
          · by_cases hq : c = '"'
            · obtain ⟨a2, p2, u2, heq, hle⟩ :=
                scanStr_ok hlen hnb (last + 2) (pos + 1) ['"'] (unc + 1) (by omega)
              have hred : tokLoop (f + 1) s last pos acc ret unc =
                  tokLoop f s last (p2 + 1) [] (emitTok a2 (emitTok acc ret)) u2 := by
                simp [tokLoop, hpos, strAt, hc, hws, hcm, hq, heq]
              rw [hred]
              exact ih (p2 + 1) [] _ u2 (by omega)
            · by_cases hop : c = '('
              · have hred : tokLoop (f + 1) s last pos acc ret unc =
                    tokLoop f s last (pos + 1) [] (emitTok [c] (emitTok acc ret)) (unc + 1) := by
                  simp [tokLoop, hpos, strAt, hc, hws, hcm, hq, hop]
                rw [hred]
                exact ih (pos + 1) [] _ (unc + 1) (by omega)
              · by_cases hcl : c = ')'
                · have hred : tokLoop (f + 1) s last pos acc ret unc =
                      tokLoop f s last (pos + 1) [] (emitTok [c] (emitTok acc ret)) (unc - 1) := by
                    simp [tokLoop, hpos, strAt, hc, hws, hcm, hq, hop, hcl]
                  rw [hred]
                  exact ih (pos + 1) [] _ (unc - 1) (by omega)
                · have hred : tokLoop (f + 1) s last pos acc ret unc =
                      tokLoop f s last (pos + 1) (acc ++ [c]) ret unc := by
                    simp [tokLoop, hpos, strAt, hc, hws, hcm, hq, hop, hcl]
                  rw [hred]
                  exact ih (pos + 1) (acc ++ [c]) ret unc (by omega)
      · exact ⟨emitTok acc ret, unc, by simp [tokLoop, hpos]⟩

/-- C2 counterexample: the tokenizer is not total.  On the empty string,
`size_t last = s.length() - 1` underflows and the first `s.at(0)` throws
`std::out_of_range`; on `"a` followed by a final backslash, the escape
handler's `s.at(pos + 1)` reads one past the end and throws.  In both cases
the exception is uncaught and the process aborts instead of returning a
token sequence. -/
theorem tokenize_err_on_empty_and_trailing_backslash :
    tokenize "" = .atThrow ∧ tokenize "\"a\\" = .atThrow := by
  constructor <;> decide

/-- C2 amended: the tokenizer terminates normally and returns a token
sequence on every input that is nonempty and does not end in a backslash.
(The two excluded classes of input — the empty string, and a buffer whose
final character is a backslash that is reached inside a string literal —
make `tokenize` throw, as the counterexample shows.) -/
theorem tokenize_total_of_wellEnded (str : String)
    (hne : str.data ≠ [])
    (hnb : str.data.get? (str.data.length - 1) ≠ some '\\') :
    ∃ toks u, tokenize str = .ok toks u := by
  unfold tokenize
  have hlen0 : str.data.length ≠ 0 := fun h => hne (List.length_eq_zero.mp h)
  simp only [if_neg hlen0]
  have hlen : (str.data.length - 1) + 1 = str.data.length := by omega
  exact tokLoop_ok hlen hnb _ 0 [] [] 0 (by omega)

/-- Witness for `tokenize_total_of_wellEnded` at the concrete input `"ab"`. -/
theorem tokenize_total_witness :
    ("ab".data ≠ [] ∧ "ab".data.get? ("ab".data.length - 1) ≠ some '\\') ∧
    ∃ toks u, tokenize "ab" = .ok toks u :=
  ⟨⟨by decide, by decide⟩, tokenize_total_of_wellEnded "ab" (by decide) (by decide)⟩

lemma arithOf_cons (op : AOp) (first : NodeR) (rest : List NodeR) :
    arithOf op (first :: rest) =
      if first.tag = .tInt then
        match first.uni.vIntRead with
        | some v => (optFold (aopInt op) v rest).map mkInt
        | none => none
      else
        match first.uni.vDoubleRead with
        | some d => (optFold (aopRat op) d rest).map mkDouble
        | none => none := by
  cases op <;> rfl

/-- C3 counterexample: the first operand is NOT coerced `to_double` in
double mode.  For `(+ "5" 1)` the claim's rule gives `atof("5") + 1 = 6.0`,
but `builtin_plus` seeds the fold with the raw union member `v_double` of
the string node — zero bits, hence `0.0` — and returns `1.0`. -/
theorem arith_first_operand_not_coerced :
    builtin_plus_v [mkStr "5", mkInt 1] = some (mkDouble 1) ∧
    specArithClaim .plus (mkStr "5") [mkInt 1] = some (mkDouble 6) ∧
    builtin_plus_v [mkStr "5", mkInt 1] ≠ specArithClaim .plus (mkStr "5") [mkInt 1] := by
  have h5 : cAtof "5" = 5 := by
    have h0 : cAtof "5" =
        (((5 : Nat) : Rat) + ((0 : Nat) : Rat) / ((1 : Nat) : Rat)) * (10 : Rat) ^ (0 : Int) :=
      rfl
    rw [h0]
    norm_num
  have hone : (0 : Rat) + ((1 : Int) : Rat) = 1 := by norm_num
  have hsix : (5 : Rat) + ((1 : Int) : Rat) = 6 := by norm_num
  have hplus : builtin_plus_v [mkStr "5", mkInt 1] = some (mkDouble 1) := by
    show some (mkDouble ((0 : Rat) + ((1 : Int) : Rat))) = some (mkDouble 1)
    rw [hone]
  have hspec : specArithClaim .plus (mkStr "5") [mkInt 1] = some (mkDouble 6) := by
    show some (mkDouble ((mkStr "5").to_double + ((1 : Int) : Rat))) = some (mkDouble 6)
    have htd : (mkStr "5").to_double = cAtof "5" := rfl
    rw [htd, h5, hsix]
  refine ⟨hplus, hspec, ?_⟩
  rw [hplus, hspec]
  intro hcontra
  have h2 := Option.some.inj hcontra
  simp [mkDouble] at h2

/-- C3 amended: for `+ - * /` with at least one operand, the mode is chosen
by the first operand's tag exactly as the claim says, and the int mode and
the double-first case behave as the claim says; but when the first operand
is neither int nor double, the double-mode seed is the raw union member
`v_double` of the first operand (zero for nil/string/list nodes,
indeterminate for bool nodes), NOT its `to_double` coercion. -/
theorem arith_mode_selection (op : AOp) (first : NodeR) (rest : List NodeR) :
    (first.tag = .tInt → (∃ v, first.uni = .uInt v) →
        arithOf op (first :: rest) = specArithClaim op first rest) ∧
    (first.tag = .tDouble → (∃ d, first.uni = .uDouble d) →
        arithOf op (first :: rest) = specArithClaim op first rest) ∧
    (first.tag ≠ .tInt →
        arithOf op (first :: rest) =
          match first.uni.vDoubleRead with
          | some d => (optFold (aopRat op) d rest).map mkDouble
          | none => none) := by
  refine ⟨?_, ?_, ?_⟩
  · rintro htag ⟨v, huni⟩
    rw [arithOf_cons, specArithClaim, if_pos htag, if_pos htag]
    have hti : first.to_int = v := by
      unfold NodeR.to_int
      rw [htag, huni]
    rw [huni, hti]
    rfl
  · rintro htag ⟨d, huni⟩
    have hne : first.tag ≠ .tInt := by rw [htag]; intro hcontra; cases hcontra
    rw [arithOf_cons, specArithClaim, if_neg hne, if_neg hne]
    have htd : first.to_double = d := by
      unfold NodeR.to_double
      rw [htag, huni]
    rw [huni, htd]
    rfl
  · intro hne
    rw [arithOf_cons, if_neg hne]

/-- Witness for `arith_mode_selection`: concrete instances of the int-mode
and double-first cases. -/
theorem arith_mode_selection_witness :
    builtin_plus_v [mkInt 2, mkInt 3] = specArithClaim .plus (mkInt 2) [mkInt 3] ∧
    builtin_mul_v [mkDouble 2, mkInt 3] = specArithClaim .mul (mkDouble 2) [mkInt 3] := by
  constructor
  · exact (arith_mode_selection .plus (mkInt 2) [mkInt 3]).1 rfl ⟨2, rfl⟩
  · exact (arith_mode_selection .mul (mkDouble 2) [mkInt 3]).2.1 rfl ⟨2, rfl⟩

/-! ## Claim theorems over the interpreter -/

lemma evalN_interp {fuel : Nat} {a : Addr} {e : Nat} {s : St} {v : Addr} {s2 : St}
    (h : evalN fuel a e s = some (v, s2)) :
    interp fuel (.cEval a e s) = some (.rVal v s2) := by
  unfold evalN at h
  cases hi : interp fuel (.cEval a e s) with
  | none => rw [hi] at h; cases h
  | some r =>
      cases r with
      | rVal a2 s3 =>
          rw [hi] at h
          injection h with h2
          injection h2 with h3 h4
          rw [h3, h4]
      | rLst l s3 => rw [hi] at h; cases h
      | rSt s3 => rw [hi] at h; cases h

lemma hGet_of_append {s : St} {a : Addr} {n : NodeR} (m : NodeR)
    (h : hGet s a = some n) :
    hGet ⟨s.heap ++ [m], s.envs⟩ a = some n := by
  unfold hGet at h ⊢
  have hlt : a < s.heap.length := (List.get?_eq_some.mp h).1
  rw [List.get?_append hlt]
  exact h

/-- C5: environment lookup returns the binding of the current frame if
present, otherwise delegates to the outer frame, and returns the canonical
`nil` when the chain ends without a match; consequently evaluating a symbol
that is bound in no frame of the chain yields `nil`. -/
theorem lookup_unbound_yields_nil (s : St) (code e hgt : Nat)
    (hnb : NotBound s code e hgt) :
    (∀ fuel, hgt < fuel → envGetF fuel s e code = some NILA) ∧
    (hgt < s.envs.length + 1 →
      ∀ a n fuel, hGet s a = some n → n.tag = .tSymbol → n.uni = .uCode code →
        evalN (fuel + 1) a e s = some (NILA, s)) ∧
    (∀ e2 fr v fuel, eGet s e2 = some fr → fr.map.lookup code = some v →
        envGetF (fuel + 1) s e2 code = some v) ∧
    (∀ e2 fr o fuel, eGet s e2 = some fr → fr.map.lookup code = none → fr.outer = some o →
        envGetF (fuel + 1) s e2 code = envGetF fuel s o code) ∧
    (∀ e2 fr fuel, eGet s e2 = some fr → fr.map.lookup code = none → fr.outer = none →
        envGetF (fuel + 1) s e2 code = some NILA) := by
  have hmain : ∀ fuel, hgt < fuel → envGetF fuel s e code = some NILA := by
    induction hnb with
    | last hfr hlk hout =>
        intro fuel hf
        cases fuel with
        | zero => omega
        | succ f => simp [envGetF, hfr, hlk, hout]
    | step hfr hlk hout _ ih =>
        intro fuel hf
        cases fuel with
        | zero => omega
        | succ f =>
            simp only [envGetF, hfr, hlk, hout]
            exact ih f (by omega)
  refine ⟨hmain, ?_, ?_, ?_, ?_⟩
  · intro hlen a n fuel ha htag huni
    obtain ⟨tg, un, vs, vl, oe⟩ := n
    simp only at htag huni
    subst htag
    subst huni
    have henv : envGet s e code = some NILA := hmain (s.envs.length + 1) (by omega)
    unfold evalN
    simp [interp, ha, henv]
  · intro e2 fr v fuel hfr hlk
    simp [envGetF, hfr, hlk]
  · intro e2 fr o fuel hfr hlk hout
    simp [envGetF, hfr, hlk, hout]
  · intro e2 fr fuel hfr hlk hout
    simp [envGetF, hfr, hlk, hout]

/-- Witness for `lookup_unbound_yields_nil`: a state with one empty global
frame and a symbol node for an uninterned name; lookup yields the canonical
nil and evaluating the symbol yields `nil`. -/
theorem lookup_unbound_witness :
    envGetF 1 ⟨globalNodes ++ [mkSym "q" 0], [⟨[], none⟩]⟩ 0 0 = some NILA ∧
    evalN 1 5 0 ⟨globalNodes ++ [mkSym "q" 0], [⟨[], none⟩]⟩ =
      some (NILA, ⟨globalNodes ++ [mkSym "q" 0], [⟨[], none⟩]⟩) := by
  have hnb : NotBound ⟨globalNodes ++ [mkSym "q" 0], [⟨[], none⟩]⟩ 0 0 0 :=
    NotBound.last rfl rfl rfl
  have h := lookup_unbound_yields_nil _ 0 0 0 hnb
  exact ⟨h.1 1 (by decide), h.2.1 (by decide) 5 (mkSym "q" 0) 0 rfl rfl rfl⟩

/-- C7: `special_def` writes through `environment::set` into the current
frame only.  Given the evaluation of the value operand, the resulting state
differs from it only by the freshly cloned value node and by the binding
map of frame `e`: every other frame (in particular every enclosing frame,
up to the global one) and every existing node is unchanged, so any binding
of the same symbol in an enclosing frame holds the same value after the
`def` as before it.  The final conjunct runs `defProg` end to end: the
`def` inside the function body binds in the application's local frame and
the global `g` still evaluates to 10. -/
theorem def_binds_local_frame_only
    (fuel : Nat) (raw : List Addr) (e : Nat) (s s1 : St)
    (ka va v code : Nat) (vn kn : NodeR) (fr : Frame)
    (h1 : raw.get? 1 = some ka) (h2 : raw.get? 2 = some va)
    (hev : evalN fuel va e s = some (v, s1))
    (hv : hGet s1 v = some vn)
    (hk : hGet s1 ka = some kn)
    (hkc : kn.codeRead = some code)
    (hfr : eGet s1 e = some fr) :
    (∃ s3, specialRun (fuel + 1) .sDef raw e s = some (s1.heap.length, s3) ∧
      s3.heap = s1.heap ++ [vn] ∧
      (∀ j, j ≠ e → s3.envs.get? j = s1.envs.get? j) ∧
      s3.envs.get? e = some ⟨mapInsert fr.map code s1.heap.length, fr.outer⟩ ∧
      (∀ a2, a2 < s1.heap.length → hGet s3 a2 = hGet s1 a2)) ∧
    (runProgram 100 defProg).map (fun r => (hGet r.2 r.1).map (fun n => (n.tag, n.uni))) =
      some (some (.tInt, .uInt 10)) := by
  constructor
  · have hi := evalN_interp hev
    have hk2 : hGet (⟨s1.heap ++ [vn], s1.envs⟩ : St) ka = some kn := hGet_of_append vn hk
    have hfr2 : eGet (⟨s1.heap ++ [vn], s1.envs⟩ : St) e = some fr := hfr
    refine ⟨eSet ⟨s1.heap ++ [vn], s1.envs⟩ e ⟨mapInsert fr.map code s1.heap.length, fr.outer⟩,
      ?_, rfl, ?_, ?_, ?_⟩
    · unfold specialRun
      simp only [interp, h1, h2, hi, cloneN, hv, alloc, hk2, hkc, envSetCode, hfr2, eSet]
    · intro j hj
      simp only [eSet]
      exact List.get?_set_ne _ _ (fun he => hj he.symm)
    · simp only [eSet]
      have hlt : e < s1.envs.length := (List.get?_eq_some.mp hfr).1
      rw [List.get?_set_eq]
      unfold eGet at hfr
      rw [hfr]
      rfl
    · intro a2 hlt
      unfold hGet
      simp only [eSet]
      rw [List.get?_append hlt]
  · set_option maxRecDepth 40000 in decide

/-- Witness for `def_binds_local_frame_only`: a two-frame state (global and
one local frame); `(def y 42)` executed in the local frame leaves the
global frame untouched. -/
theorem def_binds_local_frame_only_witness :
    ∃ s3, specialRun 2 .sDef [0, 5, 6] 1
        ⟨globalNodes ++ [mkSym "y" 0, mkInt 42], [⟨[], none⟩, ⟨[], some 0⟩]⟩ =
        some (7, s3) ∧ s3.envs.get? 0 = some ⟨[], none⟩ := by
  obtain ⟨s3, hrun, hheap, hothers, hcur, hnodes⟩ :=
    (def_binds_local_frame_only 1 [0, 5, 6] 1
      ⟨globalNodes ++ [mkSym "y" 0, mkInt 42], [⟨[], none⟩, ⟨[], some 0⟩]⟩
      ⟨globalNodes ++ [mkSym "y" 0, mkInt 42], [⟨[], none⟩, ⟨[], some 0⟩]⟩
      5 6 6 0 (mkInt 42) (mkSym "y" 0) ⟨[], some 0⟩
      rfl rfl rfl rfl rfl rfl rfl).1
  exact ⟨s3, hrun, (hothers 0 (by decide)).trans rfl⟩

/-- C9 counterexample: `(set SYM V)` where SYM's current lookup yields a
nil VALUE does not always create a new binding.  `special_set` tests
`var == nil` — shared-pointer identity with the canonical nil object — so a
symbol bound to a distinct nil-valued cell takes the in-place-overwrite
branch instead.  In `setProg`: (1) before the call, `x` evaluates to a
nil-typed value (the premise of the claim holds); (2) after `(set x 7)` runs
inside `f`, the global `x` evaluates to the int 7 — its cell was
overwritten in place, where the claim predicts a new binding in the
local frame of `f` and an untouched (nil) global `x`; (3) no frame except the
global one holds any binding for `x` — no new binding was created. -/
theorem set_nil_valued_binding_overwritten_in_place :
    (runProgram 100 [.sList [.sSym "def", .sSym "x", .sSym "y"], .sSym "x"]).map
        (fun r => (hGet r.2 r.1).map (fun n => n.tag)) = some (some .tNil) ∧
    (runProgram 100 setProg).map (fun r => (hGet r.2 r.1).map (fun n => (n.tag, n.uni))) =
      some (some (.tInt, .uInt 7)) ∧
    (runProgram 100 setProg).map (fun r =>
        (r.2.envs.drop 1).all (fun fr => (fr.map.lookup (ToCode "x" postInit.1).1).isNone)) =
      some true := by
  refine ⟨?_, ?_, ?_⟩
  · set_option maxRecDepth 40000 in decide
  · set_option maxRecDepth 40000 in decide
  · set_option maxRecDepth 40000 in decide

/-- C9 amended: `(set SYM-OR-PLACE V)` evaluates both operands; if the
first operand is a symbol AND its evaluation returned the canonical nil
object (the shared node returned by lookup failure — a binding holding a
DISTINCT nil-valued cell does not qualify), a new binding is created in the
current frame and no node is overwritten; otherwise the contents of the
evaluated place are overwritten in place — every binding sharing that node
observes the change — and no binding is created or changed. -/
theorem set_place_semantics
    (fuel : Nat) (raw : List Addr) (e : Nat) (s s1 s2 : St)
    (pa va var v : Nat) (vn pn : NodeR)
    (h1 : raw.get? 1 = some pa) (h2 : raw.get? 2 = some va)
    (hev1 : evalN fuel pa e s = some (var, s1))
    (hev2 : evalN fuel va e s1 = some (v, s2))
    (hv : hGet s2 v = some vn)
    (hp : hGet s2 pa = some pn) :
    (∀ code fr, pn.tag = .tSymbol → var = NILA →
      pn.codeRead = some code → eGet s2 e = some fr →
      specialRun (fuel + 1) .sSet raw e s =
        some (s2.heap.length,
          eSet ⟨s2.heap ++ [vn], s2.envs⟩ e
            ⟨mapInsert fr.map code s2.heap.length, fr.outer⟩) ∧
      (∀ a2, a2 < s2.heap.length →
        hGet (eSet ⟨s2.heap ++ [vn], s2.envs⟩ e
          ⟨mapInsert fr.map code s2.heap.length, fr.outer⟩) a2 = hGet s2 a2)) ∧
    (¬(pn.tag = .tSymbol ∧ var = NILA) →
      specialRun (fuel + 1) .sSet raw e s =
        some (var, hSet ⟨s2.heap ++ [vn], s2.envs⟩ var vn) ∧
      (hSet ⟨s2.heap ++ [vn], s2.envs⟩ var vn).envs = s2.envs ∧
      (var < s2.heap.length →
        hGet (hSet ⟨s2.heap ++ [vn], s2.envs⟩ var vn) var = some vn) ∧
      (∀ a2, a2 ≠ var → a2 < s2.heap.length →
        hGet (hSet ⟨s2.heap ++ [vn], s2.envs⟩ var vn) a2 = hGet s2 a2)) := by
  have hi1 := evalN_interp hev1
  have hi2 := evalN_interp hev2
  have hp2 : hGet (⟨s2.heap ++ [vn], s2.envs⟩ : St) pa = some pn := hGet_of_append vn hp
  have hca : hGet (⟨s2.heap ++ [vn], s2.envs⟩ : St) s2.heap.length = some vn := by
    unfold hGet
    simp
  constructor
  · intro code fr htag hvar hcode hfr
    have hfr2 : eGet (⟨s2.heap ++ [vn], s2.envs⟩ : St) e = some fr := hfr
    constructor
    · unfold specialRun
      simp only [interp, h1, h2, hi1, hi2, cloneN, hv, alloc, hp2, htag, hvar,
        hcode, envSetCode, hfr2, and_self, if_pos, if_true, reduceIte]
    · intro a2 hlt
      unfold hGet
      simp only [eSet]
      rw [List.get?_append hlt]
  · intro hno
    refine ⟨?_, rfl, ?_, ?_⟩
    · unfold specialRun
      simp only [interp, h1, h2, hi1, hi2, cloneN, hv, alloc, hp2, hca]
      rw [if_neg hno]
    · intro hlt
      unfold hGet hSet
      simp only
      rw [List.get?_set_eq]
      unfold hGet at *
      have : (s2.heap ++ [vn]).get? var = some (s2.heap.get ⟨var, hlt⟩) := by
        rw [List.get?_append hlt]
        exact List.get?_eq_get hlt
      rw [this]
      rfl
    · intro a2 hne hlt
      unfold hGet hSet
      simp only
      rw [List.get?_set_ne _ _ (fun he => hne he.symm)]
      rw [List.get?_append hlt]

/-- Witness for `set_place_semantics`: `(set y 42)` where `y` evaluates to
the canonical nil (unbound) creates a binding in the current frame; and the
overwrite case at a non-nil place. -/
theorem set_place_semantics_witness :
    (specialRun 2 .sSet [0, 5, 6] 0
        ⟨globalNodes ++ [mkSym "y" 9, mkInt 42], [⟨[], none⟩]⟩ =
      some (7, eSet ⟨(globalNodes ++ [mkSym "y" 9, mkInt 42]) ++ [mkInt 42], [⟨[], none⟩]⟩ 0
        ⟨mapInsert [] 9 7, none⟩)) ∧
    (specialRun 2 .sSet [0, 5, 6] 0
        ⟨globalNodes ++ [mkSym "y" 9, mkInt 42], [⟨(9, N0A) :: [], none⟩]⟩ =
      some (N0A, hSet ⟨(globalNodes ++ [mkSym "y" 9, mkInt 42]) ++ [mkInt 42],
        [⟨(9, N0A) :: [], none⟩]⟩ N0A (mkInt 42))) := by
  constructor
  · exact ((set_place_semantics 1 [0, 5, 6] 0
      ⟨globalNodes ++ [mkSym "y" 9, mkInt 42], [⟨[], none⟩]⟩
      ⟨globalNodes ++ [mkSym "y" 9, mkInt 42], [⟨[], none⟩]⟩
      ⟨globalNodes ++ [mkSym "y" 9, mkInt 42], [⟨[], none⟩]⟩
      5 6 NILA 6 (mkInt 42) (mkSym "y" 9)
      rfl rfl rfl rfl rfl rfl).1 9 ⟨[], none⟩ rfl rfl rfl rfl).1
  · exact ((set_place_semantics 1 [0, 5, 6] 0
      ⟨globalNodes ++ [mkSym "y" 9, mkInt 42], [⟨(9, N0A) :: [], none⟩]⟩
      ⟨globalNodes ++ [mkSym "y" 9, mkInt 42], [⟨(9, N0A) :: [], none⟩]⟩
      ⟨globalNodes ++ [mkSym "y" 9, mkInt 42], [⟨(9, N0A) :: [], none⟩]⟩
      5 6 N0A 6 (mkInt 42) (mkSym "y" 9)
      rfl rfl rfl rfl rfl rfl).2 (by decide)).1

/-- C10: `(pop-back! L)` on a node holding a non-empty list removes exactly
the last element in place and returns it: the result node keeps the
preceding elements in order (`l`), the store is changed at no other
address — so every binding sharing the list observes the shortened list —
and the removed element is returned.  On an empty list `v.back()` is
undefined behaviour: the error branch of the embedding. -/
theorem pop_back_removes_last
    (fuel : Nat) (args : List Addr) (e : Nat) (s : St)
    (la : Addr) (ln : NodeR)
    (h0 : args.get? 0 = some la) (hl : hGet s la = some ln) :
    (ln.v_list = [] → builtinRun (fuel + 1) .bPopBackD args e s = none) ∧
    (∀ l x, ln.v_list = l ++ [x] →
      builtinRun (fuel + 1) .bPopBackD args e s =
        some (x, hSet s la { ln with v_list := l }) ∧
      hGet (hSet s la { ln with v_list := l }) la = some { ln with v_list := l } ∧
      (∀ a2, a2 ≠ la → hGet (hSet s la { ln with v_list := l }) a2 = hGet s a2) ∧
      (hSet s la { ln with v_list := l }).envs = s.envs) := by
  constructor
  · intro hemp
    unfold builtinRun
    simp only [interp, h0, hl, hemp]
    rfl
  · intro l x hcat
    have hlast : ln.v_list.getLast? = some x := by rw [hcat]; simp
    have hdrop : ln.v_list.dropLast = l := by rw [hcat]; simp
    refine ⟨?_, ?_, ?_, rfl⟩
    · unfold builtinRun
      simp only [interp, h0, hl, hlast, hdrop]
    · have hlt : la < s.heap.length := (List.get?_eq_some.mp hl).1
      unfold hGet hSet
      simp only
      rw [List.get?_set_eq]
      unfold hGet at hl
      rw [hl]
      rfl
    · intro a2 hne
      unfold hGet hSet
      simp only
      rw [List.get?_set_ne _ _ (fun he => hne he.symm)]

/-- Witness for `pop_back_removes_last`: a store holding the list node
`(0 1)` (sharing the global `node_0` / `node_1` cells); popping returns the
second element and leaves `(0)` in place. -/
theorem pop_back_removes_last_witness :
    builtinRun 2 .bPopBackD [5] 0 ⟨globalNodes ++ [mkListN [N0A, N1A]], [⟨[], none⟩]⟩ =
      some (N1A, hSet ⟨globalNodes ++ [mkListN [N0A, N1A]], [⟨[], none⟩]⟩ 5
        { mkListN [N0A, N1A] with v_list := [N0A] }) ∧
    builtinRun 2 .bPopBackD [5] 0 ⟨globalNodes ++ [mkListN []], [⟨[], none⟩]⟩ = none := by
  constructor
  · exact ((pop_back_removes_last 1 [5] 0 ⟨globalNodes ++ [mkListN [N0A, N1A]], [⟨[], none⟩]⟩
      5 (mkListN [N0A, N1A]) rfl rfl).2 [N0A] N1A rfl).1
  · exact (pop_back_removes_last 1 [5] 0 ⟨globalNodes ++ [mkListN []], [⟨[], none⟩]⟩
      5 (mkListN []) rfl rfl).1 rfl

/-- C1 (code bug): after kernel initialization the symbol `map` is NOT
bound in the global environment — `init` (line 1196) registers the mapping
builtin under the name `"std::map"` (a mechanical rename that also hit
comments and the REPL type names; `string` was re-bound under both names at
lines 1187-1189, `map` was not).  Consequently (1) `init` never interns the
name `map`; (2) evaluating `(map (fn (x) (* x x)) (list 1 2 3))` makes the
head evaluate to `nil`, so the form yields `nil` and the REPL prints
` : nil` instead of the claimed `(1 4 9) : list`; (3) the mapping builtin
itself behaves as the claim describes: the same form with head `std::map`
prints `(1 4 9) : list`; (4) the global frame does bind `"std::map"` to the
mapping builtin. -/
theorem map_binding_bug :
    postInit.1.symcode.lookup "map" = none ∧
    runPrint (runTop 50 mapProgAst) = some " : nil" ∧
    runPrint (runTop 50 stdMapProgAst) = some "(1 4 9) : list" ∧
    ((postInit.1.symcode.lookup "std::map").bind (fun c =>
        (eGet postInit.2 0).bind (fun fr => fr.map.lookup c))).bind
      (hGet postInit.2) = some (mkBuiltin .bMap) := by
  refine ⟨?_, ?_, ?_, ?_⟩
  · set_option maxRecDepth 40000 in decide
  · set_option maxRecDepth 40000 in decide
  · set_option maxRecDepth 40000 in decide
  · set_option maxRecDepth 40000 in decide

/-- C4: with zero operands `(+)` and `(-)` return the int 0 and `(*)` and
`(/)` return the int 1 — both at the level of the builtin functions (which
return the shared `node_0` / `node_1`, as the returned addresses show) and
end to end through the REPL print. -/
theorem arith_zero_operand_identities :
    builtin_plus_v [] = some (mkInt 0) ∧
    builtin_minus_v [] = some (mkInt 0) ∧
    builtin_mul_v [] = some (mkInt 1) ∧
    builtin_div_v [] = some (mkInt 1) ∧
    runPrint (runTop 20 (.sList [.sSym "+"])) = some "0 : int" ∧
    runPrint (runTop 20 (.sList [.sSym "-"])) = some "0 : int" ∧
    runPrint (runTop 20 (.sList [.sSym "*"])) = some "1 : int" ∧
    runPrint (runTop 20 (.sList [.sSym "/"])) = some "1 : int" ∧
    (runTop 20 (.sList [.sSym "+"])).map Prod.fst = some N0A ∧
    (runTop 20 (.sList [.sSym "-"])).map Prod.fst = some N0A ∧
    (runTop 20 (.sList [.sSym "*"])).map Prod.fst = some N1A ∧
    (runTop 20 (.sList [.sSym "/"])).map Prod.fst = some N1A := by
  refine ⟨rfl, rfl, rfl, rfl, ?_, ?_, ?_, ?_, ?_, ?_, ?_, ?_⟩
  · set_option maxRecDepth 40000 in decide
  · set_option maxRecDepth 40000 in decide
  · set_option maxRecDepth 40000 in decide
  · set_option maxRecDepth 40000 in decide
  · set_option maxRecDepth 40000 in decide
  · set_option maxRecDepth 40000 in decide
  · set_option maxRecDepth 40000 in decide
  · set_option maxRecDepth 40000 in decide

lemma macroSubst_mono_le :
    ∀ (fuel : Nat) (c : Form ⊕ List Form) (vars : List (String × Form)) r,
      macroSubst fuel c vars = some r →
      ∀ fuel2, fuel ≤ fuel2 → macroSubst fuel2 c vars = some r := by
  intro fuel
  induction fuel with
  | zero => intro c vars r h; cases h
  | succ f ih =>
      intro c vars r h fuel2 hle
      cases fuel2 with
      | zero => omega
      | succ g =>
          have hfg : f ≤ g := by omega
          match c with
          | .inl (.flist l) =>
              simp only [macroSubst] at h ⊢
              cases heq : macroSubst f (.inr l) vars with
              | none => rw [heq] at h; cases h
              | some r2 =>
                  rw [heq] at h
                  rw [ih _ _ _ heq g hfg]
                  cases r2 with
                  | inl _ => cases h
                  | inr _ => exact h
          | .inl .fnil => exact h
          | .inl (.fint n) => exact h
          | .inl (.fdouble d) => exact h
          | .inl (.fbool b) => exact h
          | .inl (.fstr s) => exact h
          | .inl (.fsym s) => exact h
          | .inr [] => exact h
          | .inr (b :: bs) =>
              simp only [macroSubst] at h ⊢
              by_cases hdot : vstr b = "..."
              · simp only [if_pos hdot] at h ⊢
                cases hl : List.lookup "..." vars with
                | none => rw [hl] at h; cases h
                | some vargs =>
                    rw [hl] at h
                    cases heq : macroSubst f (.inr bs) vars with
                    | none => rw [heq] at h; cases h
                    | some r2 =>
                        rw [heq] at h
                        rw [ih _ _ _ heq g hfg]
                        cases r2 with
                        | inl _ => cases h
                        | inr _ => exact h
              · simp only [if_neg hdot] at h ⊢
                cases heq : macroSubst f (.inl b) vars with
                | none => rw [heq] at h; cases h
                | some r1 =>
                    rw [heq] at h
                    rw [ih _ _ _ heq g hfg]
                    cases r1 with
                    | inr _ => cases h
                    | inl rb =>
                        cases heq2 : macroSubst f (.inr bs) vars with
                        | none => rw [heq2] at h; cases h
                        | some r2 =>
                            rw [heq2] at h
                            rw [ih _ _ _ heq2 g hfg]
                            cases r2 with
                            | inl _ => cases h
                            | inr _ => exact h

lemma macroexpandF_mono_le {fuel fuel2 : Nat} {M : MTab} {n ex : Form}
    (h : macroexpandF fuel M n = some ex) (hle : fuel ≤ fuel2) :
    macroexpandF fuel2 M n = some ex := by
  cases h0 : (formList n).get? 0 with
  | none => simp only [macroexpandF, h0] at h; cases h
  | some hd =>
      simp only [macroexpandF, h0] at h ⊢
      cases hm : M.lookup (vstr hd) with
      | none => simp only [hm] at h ⊢; exact h
      | some mac =>
          simp only [hm] at h ⊢
          cases hb : bindMacroVars (formList mac.1) (formList n) 0 [] with
          | none => simp only [hb] at h; cases h
          | some vars =>
              simp only [hb] at h ⊢
              cases hs : macroSubst fuel (.inl mac.2) vars with
              | none => simp only [hs] at h; cases h
              | some r =>
                  simp only [hs] at h
                  rw [macroSubst_mono_le _ _ _ _ hs _ hle]
                  cases r with
                  | inr _ => exact absurd h (by simp)
                  | inl _ => exact h

lemma compileI_mono_le :
    ∀ (fuel : Nat) (M : MTab) (c : Form ⊕ List Form) r,
      compileI fuel M c = some r →
      ∀ fuel2, fuel ≤ fuel2 → compileI fuel2 M c = some r := by
  intro fuel
  induction fuel with
  | zero => intro M c r h; cases h
  | succ f ih =>
      intro M c r h fuel2 hle
      cases fuel2 with
      | zero => omega
      | succ g =>
          have hfg : f ≤ g := by omega
          match c with
          | .inl (.flist []) => exact h
          | .inl (.flist (hd :: t)) =>
              simp only [compileI] at h ⊢
              cases heq : compileI f M (.inl hd) with
              | none => rw [heq] at h; cases h
              | some r1 =>
                  rw [heq] at h
                  rw [ih _ _ _ heq g hfg]
                  obtain ⟨r1f, M1⟩ := r1
                  cases r1f with
                  | inr _ => cases h
                  | inl func =>
                      by_cases hdm : isSymNamed func "defmacro" = true
                      · simp only [hdm, if_pos] at h ⊢
                        exact h
                      · simp only [hdm, Bool.false_eq_true, if_neg, not_false_iff,
                          if_false] at h ⊢
                        by_cases hq : isSymNamed func "quote" = true
                        · simp only [hq, if_pos] at h ⊢
                          exact h
                        · simp only [hq, Bool.false_eq_true, if_neg, not_false_iff,
                            if_false] at h ⊢
                          by_cases hmac : (M1.lookup (vstr func)).isSome = true
                          · simp only [hmac, if_pos] at h ⊢
                            cases hex : macroexpandF f M1 (.flist (hd :: t)) with
                            | none => rw [hex] at h; cases h
                            | some expanded =>
                                rw [hex] at h
                                rw [macroexpandF_mono_le hex hfg]
                                exact ih _ _ _ h g hfg
                          · simp only [hmac, Bool.false_eq_true, if_neg, not_false_iff,
                              if_false] at h ⊢
                            cases heq2 : compileI f M1 (.inr (hd :: t)) with
                            | none => rw [heq2] at h; cases h
                            | some r2 =>
                                rw [heq2] at h
                                rw [ih _ _ _ heq2 g hfg]
                                obtain ⟨r2f, M2⟩ := r2
                                cases r2f with
                                | inl _ => cases h
                                | inr _ => exact h
          | .inl .fnil => exact h
          | .inl (.fint n) => exact h
          | .inl (.fdouble d) => exact h
          | .inl (.fbool b) => exact h
          | .inl (.fstr s) => exact h
          | .inl (.fsym s) => exact h
          | .inr [] => exact h
          | .inr (x :: xs) =>
              simp only [compileI] at h ⊢
              cases heq : compileI f M (.inl x) with
              | none => rw [heq] at h; cases h
              | some r1 =>
                  rw [heq] at h
                  rw [ih _ _ _ heq g hfg]
                  obtain ⟨r1f, M1⟩ := r1
                  cases r1f with
                  | inr _ => simp at h
                  | inl rx =>
                      dsimp only at h ⊢
                      cases heq2 : compileI f M1 (.inr xs) with
                      | none => rw [heq2] at h; cases h
                      | some r2 =>
                          rw [heq2] at h
                          rw [ih _ _ _ heq2 g hfg]
                          obtain ⟨r2f, M2⟩ := r2
                          cases r2f with
                          | inl _ => simp at h
                          | inr _ => exact h

lemma noDM_dm_false {func : Form} (h : NoDM func) :
    isSymNamed func "defmacro" = false := by
  cases h with
  | fsym hne => simpa [isSymNamed] using hne
  | _ => rfl

lemma noDM_flist_inv {l : List Form} (h : NoDM (.flist l)) : ∀ x ∈ l, NoDM x := by
  cases h with
  | flist hall => exact hall

lemma noDM_formList {v : Form} (h : NoDM v) : ∀ x ∈ formList v, NoDM x := by
  cases h with
  | flist hall => exact hall
  | _ => intro x hx; simp [formList] at hx

lemma upsert_mem {β : Type} {l : List (String × β)} {k : String} {v : β} {p : String × β}
    (h : p ∈ upsert l k v) : p ∈ l ∨ p = (k, v) := by
  induction l with
  | nil => simpa [upsert] using h
  | cons q tl ih =>
      simp only [upsert] at h
      by_cases hk : q.1 = k
      · rw [if_pos hk] at h
        rcases List.mem_cons.mp h with hp | hp
        · right; rw [hp, hk]
        · left; exact List.mem_cons_of_mem _ hp
      · rw [if_neg hk] at h
        rcases List.mem_cons.mp h with hp | hp
        · left; rw [hp]; exact List.mem_cons_self _ _
        · rcases ih hp with hp2 | hp2
          · left; exact List.mem_cons_of_mem _ hp2
          · right; exact hp2

lemma bindMacroVars_noDM :
    ∀ (argsyms nList : List Form) (i : Nat) (acc vars : List (String × Form)),
      (∀ x ∈ nList, NoDM x) → (∀ p ∈ acc, NoDM p.2) →
      bindMacroVars argsyms nList i acc = some vars →
      ∀ p ∈ vars, NoDM p.2 := by
  intro argsyms
  induction argsyms with
  | nil =>
      intro nList i acc vars _ hacc h
      cases h
      exact hacc
  | cons a as2 ih =>
      intro nList i acc vars hn hacc h
      simp only [bindMacroVars] at h
      by_cases hdot : vstr a = "..."
      · rw [if_pos hdot] at h
        cases h
        intro p hp
        rcases upsert_mem hp with hp2 | hp2
        · exact hacc p hp2
        · rw [hp2]
          exact NoDM.flist (fun x hx => hn x (List.mem_of_mem_drop hx))
      · rw [if_neg hdot] at h
        cases hg : nList.get? (i + 1) with
        | none => rw [hg] at h; cases h
        | some arg =>
            rw [hg] at h
            refine ih nList (i + 1) _ vars hn ?_ h
            intro p hp
            rcases upsert_mem hp with hp2 | hp2
            · exact hacc p hp2
            · rw [hp2]
              exact hn arg (List.get?_mem hg)

lemma macroSubst_noDM :
    ∀ (fuel : Nat) (c : Form ⊕ List Form) (vars : List (String × Form)) r,
      NoDMs c → (∀ p ∈ vars, NoDM p.2) → macroSubst fuel c vars = some r →
      NoDMs r := by
  intro fuel
  induction fuel with
  | zero => intro c vars r _ _ h; cases h
  | succ f ih =>
      intro c vars r hc hvars h
      match c with
      | .inl (.flist l) =>
          simp only [macroSubst] at h
          cases heq : macroSubst f (.inr l) vars with
          | none => rw [heq] at h; cases h
          | some r2 =>
              rw [heq] at h
              cases r2 with
              | inl _ => cases h
              | inr rl =>
                  cases h
                  have := ih (.inr l) vars (.inr rl) (noDM_flist_inv hc) hvars heq
                  exact NoDM.flist this
      | .inl .fnil =>
          simp only [macroSubst, vstr] at h
          cases hl : vars.lookup "" with
          | none => rw [hl] at h; cases h; exact hc
          | some v => rw [hl] at h; cases h; exact (hvars _ (lookup_mem hl))
      | .inl (.fint n) =>
          simp only [macroSubst, vstr] at h
          cases hl : vars.lookup "" with
          | none => rw [hl] at h; cases h; exact hc
          | some v => rw [hl] at h; cases h; exact (hvars _ (lookup_mem hl))
      | .inl (.fdouble d) =>
          simp only [macroSubst, vstr] at h
          cases hl : vars.lookup "" with
          | none => rw [hl] at h; cases h; exact hc
          | some v => rw [hl] at h; cases h; exact (hvars _ (lookup_mem hl))
      | .inl (.fbool b) =>
          simp only [macroSubst, vstr] at h
          cases hl : vars.lookup "" with
          | none => rw [hl] at h; cases h; exact hc
          | some v => rw [hl] at h; cases h; exact (hvars _ (lookup_mem hl))
      | .inl (.fstr s) =>
          simp only [macroSubst, vstr] at h
          cases hl : vars.lookup s with
          | none => rw [hl] at h; cases h; exact hc
          | some v => rw [hl] at h; cases h; exact (hvars _ (lookup_mem hl))
      | .inl (.fsym s) =>
          simp only [macroSubst, vstr] at h
          cases hl : vars.lookup s with
          | none => rw [hl] at h; cases h; exact hc
          | some v => rw [hl] at h; cases h; exact (hvars _ (lookup_mem hl))
      | .inr [] =>
          cases h
          intro x hx
          cases hx
      | .inr (b :: bs) =>
          simp only [macroSubst] at h
          by_cases hdot : vstr b = "..."
          · rw [if_pos hdot] at h
            cases hl : vars.lookup "..." with
            | none => rw [hl] at h; cases h
            | some vargs =>
                rw [hl] at h
                cases heq : macroSubst f (.inr bs) vars with
                | none => rw [heq] at h; cases h
                | some r2 =>
                    rw [heq] at h
                    cases r2 with
                    | inl _ => cases h
                    | inr rl =>
                        cases h
                        intro x hx
                        rcases List.mem_append.mp hx with hx2 | hx2
                        · exact noDM_formList (hvars _ (lookup_mem hl)) x hx2
                        · exact ih (.inr bs) vars (.inr rl)
                            (fun y hy => hc y (List.mem_cons_of_mem _ hy)) hvars heq x hx2
          · rw [if_neg hdot] at h
            cases heq : macroSubst f (.inl b) vars with
            | none => rw [heq] at h; cases h
            | some r1 =>
                rw [heq] at h
                cases r1 with
                | inr _ => cases h
                | inl rb =>
                    cases heq2 : macroSubst f (.inr bs) vars with
                    | none => rw [heq2] at h; cases h
                    | some r2 =>
                        rw [heq2] at h
                        cases r2 with
                        | inl _ => cases h
                        | inr rl =>
                            cases h
                            intro x hx
                            rcases List.mem_cons.mp hx with hx2 | hx2
                            · rw [hx2]
                              exact ih (.inl b) vars (.inl rb)
                                (hc b (List.mem_cons_self _ _)) hvars heq
                            · exact ih (.inr bs) vars (.inr rl)
                                (fun y hy => hc y (List.mem_cons_of_mem _ hy)) hvars heq2 x hx2

lemma macroexpandF_noDM {fuel : Nat} {M : MTab} {n ex : Form}
    (hn : NoDM n) (hM : NoDMTab M) (h : macroexpandF fuel M n = some ex) :
    NoDM ex := by
  cases h0 : (formList n).get? 0 with
  | none => simp only [macroexpandF, h0] at h; cases h
  | some hd =>
      simp only [macroexpandF, h0] at h
      cases hm : M.lookup (vstr hd) with
      | none =>
          simp only [hm] at h
          cases h
          exact hn
      | some mac =>
          simp only [hm] at h
          have hmac := hM _ (lookup_mem hm)
          cases hb : bindMacroVars (formList mac.1) (formList n) 0 [] with
          | none => simp only [hb] at h; cases h
          | some vars =>
              simp only [hb] at h
              have hvars : ∀ p ∈ vars, NoDM p.2 :=
                bindMacroVars_noDM _ _ 0 [] vars (noDM_formList hn) (by intro p hp; cases hp) hb
              cases hs : macroSubst fuel (.inl mac.2) vars with
              | none => simp only [hs] at h; cases h
              | some r =>
                  simp only [hs] at h
                  cases r with
                  | inr _ => cases h
                  | inl rr =>
                      cases h
                      exact macroSubst_noDM _ (.inl mac.2) vars _ hmac.2 hvars hs

lemma compileI_fix :
    ∀ (fuel : Nat) (M : MTab) (c : Form ⊕ List Form) r,
      NoDMTab M → NoDMs c → compileI fuel M c = some r →
      r.2 = M ∧ NoDMs r.1 ∧ ∃ n, compileI n M r.1 = some (r.1, M) := by
  intro fuel
  induction fuel with
  | zero => intro M c r _ _ h; cases h
  | succ f ih =>
      intro M c r hM hc h
      have horig := h
      match c with
      | .inl .fnil => simp only [compileI] at h; cases h; exact ⟨rfl, hc, 1, rfl⟩
      | .inl (.fint n) => simp only [compileI] at h; cases h; exact ⟨rfl, hc, 1, rfl⟩
      | .inl (.fdouble d) => simp only [compileI] at h; cases h; exact ⟨rfl, hc, 1, rfl⟩
      | .inl (.fbool b) => simp only [compileI] at h; cases h; exact ⟨rfl, hc, 1, rfl⟩
      | .inl (.fstr s) => simp only [compileI] at h; cases h; exact ⟨rfl, hc, 1, rfl⟩
      | .inl (.fsym s) => simp only [compileI] at h; cases h; exact ⟨rfl, hc, 1, rfl⟩
      | .inl (.flist []) => simp only [compileI] at h; cases h; exact ⟨rfl, hc, 1, rfl⟩
      | .inr [] => simp only [compileI] at h; cases h; exact ⟨rfl, hc, 1, rfl⟩
      | .inl (.flist (hd :: t)) =>
          simp only [compileI] at h
          cases heq : compileI f M (.inl hd) with
          | none => rw [heq] at h; cases h
          | some r1 =>
              rw [heq] at h
              obtain ⟨r1f, M1⟩ := r1
              cases r1f with
              | inr _ => simp at h
              | inl func =>
                  obtain ⟨hM1, hfunc, nf, hnf⟩ :=
                    ih M (.inl hd) (.inl func, M1) hM
                      (noDM_flist_inv hc hd (List.mem_cons_self _ _)) heq
                  simp only at hM1
                  subst M1
                  have hfunc2 : NoDM func := hfunc
                  have hdm := noDM_dm_false hfunc2
                  dsimp only at h
                  rw [if_neg (by simp [hdm])] at h
                  by_cases hq : isSymNamed func "quote" = true
                  · rw [if_pos hq] at h
                    cases h
                    exact ⟨rfl, hc, f + 1, horig⟩
                  · rw [if_neg hq] at h
                    by_cases hmac : (M.lookup (vstr func)).isSome = true
                    · rw [if_pos hmac] at h
                      cases hex : macroexpandF f M (.flist (hd :: t)) with
                      | none => rw [hex] at h; cases h
                      | some expanded =>
                          rw [hex] at h
                          exact ih M (.inl expanded) r hM (macroexpandF_noDM hc hM hex) h
                    · rw [if_neg hmac] at h
                      cases heq2 : compileI f M (.inr (hd :: t)) with
                      | none => rw [heq2] at h; cases h
                      | some r2 =>
                          rw [heq2] at h
                          obtain ⟨r2f, M2⟩ := r2
                          cases r2f with
                          | inl _ => simp at h
                          | inr rs =>
                              cases h
                              obtain ⟨hM2, hrs, nl, hnl⟩ :=
                                ih M (.inr (hd :: t)) (.inr rs, M2) hM (noDM_flist_inv hc) heq2
                              simp only at hM2
                              subst M2
                              have hrs2 : ∀ y ∈ rs, NoDM y := hrs
                              refine ⟨rfl, NoDM.flist hrs2, ?_⟩
                              cases f with
                              | zero => cases heq2
                              | succ f2 =>
                                  simp only [compileI] at heq2
                                  cases hx : compileI f2 M (.inl hd) with
                                  | none => rw [hx] at heq2; cases heq2
                                  | some rx1 =>
                                      rw [hx] at heq2
                                      obtain ⟨rx1f, Mx⟩ := rx1
                                      cases rx1f with
                                      | inr _ => simp at heq2
                                      | inl rx =>
                                          dsimp only at heq2
                                          cases hy : compileI f2 Mx (.inr t) with
                                          | none => rw [hy] at heq2; cases heq2
                                          | some ry =>
                                              rw [hy] at heq2
                                              obtain ⟨ryf, My⟩ := ry
                                              cases ryf with
                                              | inl _ => simp at heq2
                                              | inr rs2 =>
                                                  have hx2 :=
                                                    compileI_mono_le _ _ _ _ hx (f2 + 1)
                                                      (Nat.le_succ _)
                                                  have hdet := hx2.symm.trans heq
                                                  injection hdet with hdet2
                                                  injection hdet2 with hdeta hdetb
                                                  injection hdeta with hdetc
                                                  subst hdetc
                                                  subst hdetb
                                                  injection heq2 with heq3
                                                  injection heq3 with heqa heqb
                                                  injection heqa with heqc
                                                  subst heqb
                                                  have hrseq : rs = rx :: rs2 := heqc.symm
                                                  subst hrseq
                                                  refine ⟨max nf nl + 1, ?_⟩
                                                  have hha :=
                                                    compileI_mono_le _ _ _ _ hnf (max nf nl)
                                                      (le_max_left _ _)
                                                  have hhb :=
                                                    compileI_mono_le _ _ _ _ hnl (max nf nl)
                                                      (le_max_right _ _)
                                                  simp only [compileI, hha]
                                                  rw [if_neg (by simp [hdm])]
                                                  rw [if_neg hq]
                                                  rw [if_neg hmac]
                                                  rw [hhb]
      | .inr (x :: xs) =>
          simp only [compileI] at h
          cases heq : compileI f M (.inl x) with
          | none => rw [heq] at h; cases h
          | some r1 =>
              rw [heq] at h
              obtain ⟨r1f, M1⟩ := r1
              cases r1f with
              | inr _ => simp at h
              | inl rx =>
                  dsimp only at h
                  obtain ⟨hM1, hrx, nx, hnx⟩ :=
                    ih M (.inl x) (.inl rx, M1) hM (hc x (List.mem_cons_self _ _)) heq
                  simp only at hM1
                  subst M1
                  have hrx2 : NoDM rx := hrx
                  cases heq2 : compileI f M (.inr xs) with
                  | none => rw [heq2] at h; cases h
                  | some r2 =>
                      rw [heq2] at h
                      obtain ⟨r2f, M2⟩ := r2
                      cases r2f with
                      | inl _ => simp at h
                      | inr rs2 =>
                          cases h
                          obtain ⟨hM2, hrs, ns, hns⟩ :=
                            ih M (.inr xs) (.inr rs2, M2) hM
                              (fun y hy => hc y (List.mem_cons_of_mem _ hy)) heq2
                          simp only at hM2
                          subst M2
                          have hrs3 : ∀ y ∈ rs2, NoDM y := hrs
                          refine ⟨rfl, ?_, ?_⟩
                          · intro y hy
                            rcases List.mem_cons.mp hy with hy2 | hy2
                            · rw [hy2]; exact hrx2
                            · exact hrs3 y hy2
                          · refine ⟨max nx ns + 1, ?_⟩
                            have hha :=
                              compileI_mono_le _ _ _ _ hnx (max nx ns) (le_max_left _ _)
                            have hhb :=
                              compileI_mono_le _ _ _ _ hns (max nx ns) (le_max_right _ _)
                            simp only [compileI, hha, hhb]

/-- C8 counterexample: compile is NOT a fixed point on its own output.
Compiling `c8Form` yields `c8Once` (recording the macro `m`); compiling
that output again yields `c8Twice`, in which the surviving call `(m 3)` has
become `(+ 3 3)` — a change that is not a `defmacro`-to-nil replacement, so
the claim's exception does not cover it. -/
theorem compile_not_idempotent_late_dm :
    compileF 20 [] c8Form = some (c8Once, c8Tab) ∧
    compileF 20 c8Tab c8Once = some (c8Twice, c8Tab) ∧
    c8Twice ≠ c8Once := by
  refine ⟨rfl, rfl, ?_⟩
  intro hcontra
  simp only [c8Twice, c8Once] at hcontra
  injection hcontra with hl
  simp at hl

/-- C8 amended: compile IS a fixed point on its own output for every form
in which the symbol `defmacro` does not occur (given a macro table whose
stored parameter lists and bodies are likewise `defmacro`-free): the first
compile leaves the table unchanged, its output contains no `defmacro`, and
ANY terminating recompile of the output returns it unchanged with the same
table.  When `defmacro` does occur, the second compile can differ beyond
the claim's defmacro-to-nil exception, as the counterexample's
use-before-definition form shows. -/
theorem compile_idempotent_dm_free
    (fuel1 : Nat) (M M1 : MTab) (f g : Form)
    (hf : NoDM f) (hM : NoDMTab M)
    (hc : compileF fuel1 M f = some (g, M1)) :
    M1 = M ∧ NoDM g ∧
    ∀ fuel2 h2 M2, compileF fuel2 M g = some (h2, M2) → h2 = g ∧ M2 = M := by
  unfold compileF at hc
  cases hci : compileI fuel1 M (.inl f) with
  | none => rw [hci] at hc; cases hc
  | some r =>
      rw [hci] at hc
      obtain ⟨rf, M1x⟩ := r
      cases rf with
      | inr _ => cases hc
      | inl g2 =>
          injection hc with hc1
          injection hc1 with hcg hcM
          subst hcg
          subst hcM
          obtain ⟨hM1, hg, n, hn⟩ := compileI_fix fuel1 M (.inl f) (.inl g2, M1x) hM hf hci
          simp only at hM1
          subst M1x
          refine ⟨rfl, hg, ?_⟩
          intro fuel2 h2 M2 hc2
          unfold compileF at hc2
          cases hci2 : compileI fuel2 M (.inl g2) with
          | none => rw [hci2] at hc2; cases hc2
          | some r2 =>
              rw [hci2] at hc2
              obtain ⟨r2f, M2x⟩ := r2
              cases r2f with
              | inr _ => cases hc2
              | inl h3 =>
                  cases hc2
                  have ha := compileI_mono_le _ _ _ _ hn (max n fuel2) (le_max_left _ _)
                  have hb := compileI_mono_le _ _ _ _ hci2 (max n fuel2) (le_max_right _ _)
                  have hd := ha.symm.trans hb
                  injection hd with hd2
                  injection hd2 with hda hdb
                  injection hda with hdc
                  exact ⟨hdc.symm, hdb.symm⟩

/-- Witness for `compile_idempotent_dm_free` at the concrete
`defmacro`-free form `(+ 1 2)` and the empty macro table. -/
theorem compile_idempotent_witness :
    compileF 5 [] (.flist [.fsym "+", .fint 1, .fint 2]) =
      some (.flist [.fsym "+", .fint 1, .fint 2], []) ∧
    ∀ fuel2 h2 M2,
      compileF fuel2 [] (.flist [.fsym "+", .fint 1, .fint 2]) = some (h2, M2) →
      h2 = .flist [.fsym "+", .fint 1, .fint 2] ∧ M2 = [] := by
  have hnodm : NoDM (.flist [.fsym "+", .fint 1, .fint 2]) := by
    refine NoDM.flist ?_
    intro x hx
    rcases List.mem_cons.mp hx with h | hx
    · rw [h]; exact NoDM.fsym (by decide)
    rcases List.mem_cons.mp hx with h | hx
    · rw [h]; exact NoDM.fint
    rcases List.mem_cons.mp hx with h | hx
    · rw [h]; exact NoDM.fint
    · cases hx
  have htab : NoDMTab ([] : MTab) := by intro p hp; cases hp
  have h := compile_idempotent_dm_free 5 [] []
    (.flist [.fsym "+", .fint 1, .fint 2]) (.flist [.fsym "+", .fint 1, .fint 2])
    hnodm htab rfl
  exact ⟨rfl, h.2.2⟩
